import Mathlib

/-!
Verification of the ArizonaLauncher core (src/main.py) against its
natural-language specification.

The embedding models Python values flowing through the launcher as a `Json`
tree (the values produced by `json.loads` / the webview JS bridge).  Scope
restrictions of the embedding, recorded once here:
  * JSON numbers are modelled as integers (`Int`); documents containing
    fractional/exponent numbers, `NaN` or `Infinity` are outside the model.
  * Python strings are modelled as Lean `String`s, i.e. sequences of Unicode
    scalar values; lone surrogates are outside the model.
All definitions are transcriptions of the corresponding Python code in
src/main.py; each definition's doc comment names the source lines it embeds.
-/

/-- A JSON-compatible Python value: the type of data produced by
`json.loads` and passed over the webview bridge (src/main.py uses `dict`,
`list`, `str`, `int`, `bool`, `None`). -/
inductive Json where
  | null : Json
  | bool : Bool → Json
  | num : Int → Json
  | str : String → Json
  | arr : List Json → Json
  | obj : List (String × Json) → Json

mutual

/-- Structural equality test on `Json` values. -/
def Json.beq : Json → Json → Bool
  | .null, .null => true
  | .bool a, .bool b => a == b
  | .num a, .num b => a == b
  | .str a, .str b => a == b
  | .arr xs, .arr ys => Json.beqList xs ys
  | .obj a, .obj b => Json.beqKvs a b
  | _, _ => false

/-- Structural equality test on lists of `Json` values. -/
def Json.beqList : List Json → List Json → Bool
  | [], [] => true
  | x :: xs, y :: ys => Json.beq x y && Json.beqList xs ys
  | _, _ => false

/-- Structural equality test on key-value lists. -/
def Json.beqKvs : List (String × Json) → List (String × Json) → Bool
  | [], [] => true
  | (k, v) :: xs, (k', v') :: ys => k == k' && Json.beq v v' && Json.beqKvs xs ys
  | _, _ => false

end

mutual

theorem Json.beq_iff : ∀ a b : Json, Json.beq a b = true ↔ a = b
  | .null, b => by cases b <;> simp [Json.beq]
  | .bool x, b => by cases b <;> simp [Json.beq]
  | .num x, b => by cases b <;> simp [Json.beq]
  | .str x, b => by cases b <;> simp [Json.beq]
  | .arr xs, b => by
      cases b <;> simp [Json.beq]
      exact Json.beqList_iff xs _
  | .obj kvs, b => by
      cases b <;> simp [Json.beq]
      exact Json.beqKvs_iff kvs _

theorem Json.beqList_iff : ∀ a b : List Json, Json.beqList a b = true ↔ a = b
  | [], b => by cases b <;> simp [Json.beqList]
  | x :: xs, b => by
      cases b with
      | nil => simp [Json.beqList]
      | cons y ys =>
          simp only [Json.beqList, Bool.and_eq_true, Json.beq_iff x y,
            Json.beqList_iff xs ys, List.cons.injEq]

theorem Json.beqKvs_iff : ∀ a b : List (String × Json), Json.beqKvs a b = true ↔ a = b
  | [], b => by cases b <;> simp [Json.beqKvs]
  | (k, v) :: xs, b => by
      cases b with
      | nil => simp [Json.beqKvs]
      | cons p ys =>
          obtain ⟨k', v'⟩ := p
          simp only [Json.beqKvs, Bool.and_eq_true, beq_iff_eq, Json.beq_iff v v',
            Json.beqKvs_iff xs ys, List.cons.injEq, Prod.mk.injEq, and_assoc]

end

instance : DecidableEq Json := fun a b => decidable_of_iff _ (Json.beq_iff a b)

/-- Python truthiness (`bool(x)`) for the modelled values: `None`, `False`,
`0`, `""`, `[]` and `{}` are falsy, everything else truthy. -/
def truthy : Json → Bool
  | .null => false
  | .bool b => b
  | .num n => n != 0
  | .str s => s ≠ ""
  | .arr xs => !xs.isEmpty
  | .obj kvs => !kvs.isEmpty

/-- Python `a or b`: returns `a` when `a` is truthy, else `b`. -/
def pyOr (a b : Json) : Json := if truthy a then a else b

/-- First-occurrence association lookup, the observable behaviour of a
Python `dict` (whose keys are unique). -/
def assocLookup : List (String × Json) → String → Option Json
  | [], _ => none
  | (k, v) :: rest, key => if k = key then some v else assocLookup rest key

/-- Python `d.get(key)` on a dict value: the stored value, or `None` when
the key is absent. -/
def jget (j : Json) (k : String) : Json :=
  match j with
  | .obj kvs => (assocLookup kvs k).getD .null
  | _ => .null

/-- Python `d.get(key, default)` on a dict value: the stored value — even a
falsy one — or the default only when the key is absent. -/
def jgetD (j : Json) (k : String) (d : Json) : Json :=
  match j with
  | .obj kvs => (assocLookup kvs k).getD d
  | _ => d

/-- Python `d[key] = v` on a dict: replaces the value at an existing key in
place, otherwise appends the new binding. -/
def jdictSet : List (String × Json) → String → Json → List (String × Json)
  | [], k, v => [(k, v)]
  | (k', v') :: rest, k, v =>
    if k' = k then (k', v) :: rest else (k', v') :: jdictSet rest k v

/-- Characters for which Python's `str.isspace` (and hence `str.strip` and
the regex class `\s`) holds. -/
def isPySpace (c : Char) : Bool :=
  c = ' ' || c = '\t' || c = '\n' || c = '\r' ||
  c = '\x0b' || c = '\x0c' ||
  c = '\x1c' || c = '\x1d' || c = '\x1e' || c = '\x1f' ||
  c = '\x85' || c = '\xa0' ||
  c = Char.ofNat 0x1680 ||
  (0x2000 ≤ c.toNat && c.toNat ≤ 0x200a) ||
  c = Char.ofNat 0x2028 || c = Char.ofNat 0x2029 ||
  c = Char.ofNat 0x202f || c = Char.ofNat 0x205f || c = Char.ofNat 0x3000

/-- Python `s.strip()` on a character list: drop whitespace from both ends. -/
def stripL (l : List Char) : List Char :=
  ((l.dropWhile isPySpace).reverse.dropWhile isPySpace).reverse

/-- Python `s.strip()` on strings (used at src/main.py:91,94). -/
def pyStrip (s : String) : String := String.mk (stripL s.toList)

/-- Decimal digit character for `n < 10`. -/
def digitChar (n : Nat) : Char := Char.ofNat (48 + n)

/-- Decimal digits with an explicit recursion budget (structural, so that
the kernel can evaluate it). -/
def natCharsF : Nat → Nat → List Char
  | 0, _ => []
  | fuel + 1, n =>
    if n < 10 then [digitChar n]
    else natCharsF fuel (n / 10) ++ [digitChar (n % 10)]

/-- Decimal digits of a natural number, most significant first (the digits
of Python's `str(n)` for `n ≥ 0`); the budget `n + 1` always suffices. -/
def natChars (n : Nat) : List Char := natCharsF (n + 1) n

/-- Python `str(n)` for an integer. -/
def intChars (n : Int) : List Char :=
  if n < 0 then '-' :: natChars n.natAbs else natChars n.natAbs

/-- Left and right curly-brace characters (kept out of string literals). -/
def lbrace : Char := Char.ofNat 123

/-- Right curly-brace character. -/
def rbrace : Char := Char.ofNat 125

/-- Hexadecimal digit character for `n < 16`, lower case (as produced by
Python's `\xhh` escapes). -/
def hexChar (n : Nat) : Char :=
  if n < 10 then Char.ofNat (48 + n) else Char.ofNat (87 + n)

/-- Escaping of one character inside Python's `repr` of a string, given the
chosen quote character: backslash, the quote, `\n`, `\r`, `\t` are named
escapes, and every character below U+0100 that `repr` deems non-printable
— the remaining C0 controls, DEL and the C1 controls (U+007F–U+009F),
NO-BREAK SPACE (U+00A0) and SOFT HYPHEN (U+00AD) — becomes `\xhh`.  This
matches CPython exactly on the repertoire below U+0100; higher
code points are carried verbatim (CPython additionally `\u`-escapes those
that the Unicode database of its build classifies as non-printable, a
version-dependent table outside this model, like floats and surrogates). -/
def pyReprEsc (q c : Char) : List Char :=
  if c = '\\' then ['\\', '\\']
  else if c = q then ['\\', q]
  else if c = '\n' then ['\\', 'n']
  else if c = '\r' then ['\\', 'r']
  else if c = '\t' then ['\\', 't']
  else if c.toNat < 0x20 || (0x7f ≤ c.toNat && c.toNat ≤ 0xa0) || c.toNat = 0xad then
    ['\\', 'x', hexChar (c.toNat / 16), hexChar (c.toNat % 16)]
  else [c]

/-- Python `repr` of a string: single-quoted unless the text contains a
single quote and no double quote. -/
def pyReprStr (s : String) : List Char :=
  let l := s.toList
  let q : Char := if l.contains '\'' && !(l.contains '"') then '"' else '\''
  q :: (l.flatMap (pyReprEsc q)) ++ [q]

mutual

/-- Python `str(x)` as used by f-string interpolation in src/main.py
(e.g. `f'Server {server_id}'` at line 296): identity on strings,
`None`/`True`/`False` for the singletons, decimal for integers, `repr` for
containers. -/
def pyStr : Json → List Char
  | .null => ['N', 'o', 'n', 'e']
  | .bool true => ['T', 'r', 'u', 'e']
  | .bool false => ['F', 'a', 'l', 's', 'e']
  | .num n => intChars n
  | .str s => s.toList
  | .arr xs => '[' :: pyStrItems xs ++ [']']
  | .obj kvs => lbrace :: pyStrKvs kvs ++ [rbrace]

/-- Python `repr(x)`: like `str(x)` but strings are quoted. -/
def pyRepr : Json → List Char
  | .str s => pyReprStr s
  | j => pyStrAux j

/-- Helper so that `pyRepr` and `pyStr` agree off strings. -/
def pyStrAux : Json → List Char
  | .null => ['N', 'o', 'n', 'e']
  | .bool true => ['T', 'r', 'u', 'e']
  | .bool false => ['F', 'a', 'l', 's', 'e']
  | .num n => intChars n
  | .str s => s.toList
  | .arr xs => '[' :: pyStrItems xs ++ [']']
  | .obj kvs => lbrace :: pyStrKvs kvs ++ [rbrace]

/-- Comma-separated `repr`s of list items. -/
def pyStrItems : List Json → List Char
  | [] => []
  | [x] => pyRepr x
  | x :: y :: rest => pyRepr x ++ ',' :: ' ' :: pyStrItems (y :: rest)

/-- Comma-separated `repr(key): repr(value)` pairs of a dict. -/
def pyStrKvs : List (String × Json) → List Char
  | [] => []
  | [(k, v)] => pyReprStr k ++ ':' :: ' ' :: pyRepr v
  | (k, v) :: p :: rest =>
      pyReprStr k ++ ':' :: ' ' :: pyRepr v ++ ',' :: ' ' :: pyStrKvs (p :: rest)

end

/-- Python `str(x)` returned as a `String`. -/
def pyStrS (j : Json) : String := String.mk (pyStr j)

/-- Whether `pat` occurs as a contiguous subsequence of `l` (Python's
substring test `pat in s` for strings). -/
def seqContains (pat : List Char) : List Char → Bool
  | [] => pat.isEmpty
  | c :: rest => pat.isPrefixOf (c :: rest) || seqContains pat rest

/-- Python `'query' in data` (src/main.py:267): key membership for a dict,
element membership for a list, substring test for a string, and a raised
`TypeError` (modelled as `Except.error`) for non-iterable values. -/
def pyInQuery : Json → Except Unit Bool
  | .obj kvs => .ok (kvs.any (fun p => p.1 = "query"))
  | .arr xs => .ok (xs.contains (.str "query"))
  | .str s => .ok (seqContains "query".toList s.toList)
  | _ => .error ()

/-- Python `data['query']` (src/main.py:267,269): dict lookup (raising
`KeyError` when absent), raising `TypeError` for every other value. -/
def pyGetItemQuery : Json → Except Unit Json
  | .obj kvs =>
      match assocLookup kvs "query" with
      | some v => .ok v
      | none => .error ()
  | _ => .error ()

/-- Payload-shape detection of `get_servers` (src/main.py:267-278):
`ok (some xs)` — a server list was selected; `ok none` — the final `else`
returned `None`; `error` — evaluating the conditions raised, which the
enclosing `except` turns into `None`. -/
def selectServerList (data : Json) : Except Unit (Option (List Json)) := do
  let m ← pyInQuery data
  let viaQuery ←
    if m then do
      let v ← pyGetItemQuery data
      pure (match v with | .arr xs => some xs | _ => none)
    else pure none
  match viaQuery with
  | some xs => pure (some xs)
  | none =>
    match data with
    | .arr xs => pure (some xs)
    | .obj kvs => pure (some (kvs.map Prod.snd))
    | _ => pure none

/-- Python `x > n` for an int literal `n` (src/main.py:304): defined for
ints and bools (`True == 1`), raising `TypeError` otherwise. -/
def pyGtInt (x : Json) (n : Int) : Except Unit Bool :=
  match x with
  | .num m => .ok (n < m)
  | .bool b => .ok (n < (if b then (1 : Int) else 0))
  | _ => .error ()

/-- Python `x == 0` (src/main.py:304): never raises; `False == 0` and
`0 == 0` hold, everything else compares unequal. -/
def pyEqZero : Json → Bool
  | .num m => m == 0
  | .bool b => !b
  | _ => false

/-- The recommended-server expression (src/main.py:304):
`server.get('recomend', False) or server.get('recommended', False) or
(server_online > 400 and server_queue == 0)`, with Python's short-circuit
`or`/`and` value semantics; `>` may raise (skipping the entry). -/
def pyRecommend (server online queue : Json) : Except Unit Json :=
  let a := jgetD server "recomend" (.bool false)
  if truthy a then .ok a
  else
    let b := jgetD server "recommended" (.bool false)
    if truthy b then .ok b
    else do
      let g ← pyGtInt online 400
      if g then .ok (.bool (pyEqZero queue)) else .ok (.bool false)

/-- Per-entry normalization of `get_servers` (src/main.py:288-315): entries
that are not dicts, or whose normalization raises, yield `none` (the loop
logs and `continue`s); otherwise the canonical record dict is built. -/
def normalizeServer (idx : Nat) (server : Json) : Option Json :=
  match server with
  | .obj _ =>
    let server_id := pyOr (jget server "number")
      (pyOr (jget server "serverNumber") (jgetD server "id" (.num (idx + 1))))
    let server_name := jgetD server "name" (.str ("Server " ++ pyStrS server_id))
    let server_online := pyOr (jget server "online") (jgetD server "playersOnline" (.num 0))
    let server_queue := pyOr (jget server "queue") (jgetD server "queueLength" (.num 0))
    let server_max := pyOr (jget server "maxplayers")
      (pyOr (jget server "maxPlayers") (jgetD server "maxonline" (.num 1000)))
    let server_ip := jgetD server "ip" (.str ("server" ++ pyStrS server_id ++ ".arizona-rp.com"))
    let server_port := jgetD server "port" (.num 7777)
    match pyRecommend server server_online server_queue with
    | .error _ => none
    | .ok is_recommended =>
      some (.obj
        [("number", server_id), ("name", server_name), ("online", server_online),
         ("queue", server_queue), ("recommended", is_recommended), ("ip", server_ip),
         ("port", server_port), ("maxplayers", server_max)])
  | _ => none

/-- The `for idx, server in enumerate(server_list)` loop of `get_servers`
(src/main.py:287-318), started at index `idx`: malformed entries are
skipped, the rest are appended in order. -/
def processFrom (idx : Nat) : List Json → List Json
  | [] => []
  | s :: rest =>
    match normalizeServer idx s with
    | some r => r :: processFrom (idx + 1) rest
    | none => processFrom (idx + 1) rest

/-- The observable part of the HTTP response consumed by `get_servers`:
a status code and, when `response.json()` succeeds, the decoded body. -/
structure HttpResponse where
  status : Nat
  body : Option Json

/-- The roster fetch `WebViewApp.get_servers` (src/main.py:245-352), as a
function of the transport outcome: `none` input models a raised
connection/timeout error.  Every failure path of the source returns
`None`, modelled as `none`; success returns the normalized roster. -/
def get_servers (resp : Option HttpResponse) : Option (List Json) :=
  match resp with
  | none => none
  | some r =>
    if r.status ≠ 200 then none
    else
      match r.body with
      | none => none
      | some data =>
        match selectServerList data with
        | .error _ => none
        | .ok none => none
        | .ok (some server_list) => some (processFrom 0 server_list)

/-- Whether a byte is a UTF-8 continuation byte. -/
def isCont (b : Nat) : Bool := 0x80 ≤ b && b ≤ 0xBF

/-- Valid second byte of a 3-byte UTF-8 sequence, given the lead byte
(`E0` narrows to `A0..BF`, `ED` to `80..9F` to exclude surrogates). -/
def isCont3 (lead b : Nat) : Bool :=
  if lead = 0xE0 then 0xA0 ≤ b && b ≤ 0xBF
  else if lead = 0xED then 0x80 ≤ b && b ≤ 0x9F
  else isCont b

/-- Valid second byte of a 4-byte UTF-8 sequence, given the lead byte. -/
def isCont4 (lead b : Nat) : Bool :=
  if lead = 0xF0 then 0x90 ≤ b && b ≤ 0xBF
  else if lead = 0xF4 then 0x80 ≤ b && b ≤ 0x8F
  else isCont b

def utf8DecodeIgnoreF : Nat → List Nat → List Char
  | 0, _ => []
  | _, [] => []
  | fuel + 1, b :: rest =>
    if b < 0x80 then Char.ofNat b :: utf8DecodeIgnoreF fuel rest
    else if 0xC2 ≤ b && b ≤ 0xDF then
      match rest with
      | [] => []
      | b2 :: rest2 =>
        if isCont b2 then
          Char.ofNat ((b - 0xC0) * 64 + (b2 - 0x80)) :: utf8DecodeIgnoreF fuel rest2
        else utf8DecodeIgnoreF fuel (b2 :: rest2)
    else if 0xE0 ≤ b && b ≤ 0xEF then
      match rest with
      | [] => []
      | b2 :: rest2 =>
        if isCont3 b b2 then
          match rest2 with
          | [] => []
          | b3 :: rest3 =>
            if isCont b3 then
              Char.ofNat ((b - 0xE0) * 4096 + (b2 - 0x80) * 64 + (b3 - 0x80)) ::
                utf8DecodeIgnoreF fuel rest3
            else utf8DecodeIgnoreF fuel (b3 :: rest3)
        else utf8DecodeIgnoreF fuel (b2 :: rest2)
    else if 0xF0 ≤ b && b ≤ 0xF4 then
      match rest with
      | [] => []
      | b2 :: rest2 =>
        if isCont4 b b2 then
          match rest2 with
          | [] => []
          | b3 :: rest3 =>
            if isCont b3 then
              match rest3 with
              | [] => []
              | b4 :: rest4 =>
                if isCont b4 then
                  Char.ofNat ((b - 0xF0) * 262144 + (b2 - 0x80) * 4096 +
                    (b3 - 0x80) * 64 + (b4 - 0x80)) :: utf8DecodeIgnoreF fuel rest4
                else utf8DecodeIgnoreF fuel (b4 :: rest4)
            else utf8DecodeIgnoreF fuel (b3 :: rest3)
        else utf8DecodeIgnoreF fuel (b2 :: rest2)
    else utf8DecodeIgnoreF fuel rest

/-- Python `bytes.decode('utf-8', errors='ignore')` (src/main.py:159): a
total decoder that drops each maximal invalid subpart and never raises.
Each step consumes at least one byte, so the length is a sufficient
budget. -/
def utf8DecodeIgnore (bs : List Nat) : List Char := utf8DecodeIgnoreF bs.length bs

/-- Environment of one launch attempt: everything `launch_game` observes
from the operating system and the configuration file system.  `exnText`
and `spawnErrMsg` stand for the `str(e)` of the respective exceptions. -/
structure LaunchEnv where
  launcher_path : String
  launcherAvailable : Bool
  exnText : String
  spawnRaises : Bool
  spawnErrMsg : String
  processStillRunning : Bool
  pid : Nat
  stderrBytes : List Nat
  saveWriteFails : Bool

/-- The dict returned by `ArizonaLauncher.launch_game`
(`success`/`message`/optional `pid`). -/
structure LaunchResult where
  success : Bool
  message : String
  pid : Option Nat
deriving DecidableEq

/-- Side effects performed during one launch attempt: whether
`kill_all_launchers` ran, the argument vector handed to `subprocess.Popen`
(if any), and the configuration handed to `save_config` together with
whether its write completed. -/
structure LaunchEffects where
  killedLaunchers : Bool
  spawnedCmd : Option (List Json)
  savedConfig : Option (List (String × Json) × Bool)
deriving DecidableEq

/-- `ArizonaLauncher.save_config` (src/main.py:51-58): the write may fail,
but the exception is caught and only logged — the function always returns
normally.  The returned Bool records whether the write completed. -/
def save_config (writeFails : Bool) : Bool := !writeFails

/-- Connection parameters of `launch_game` (src/main.py:98-105): fixed
defaults, overridden from a truthy `server_data`; calling `.get` on a
truthy non-dict raises `AttributeError` (caught by the outer handler). -/
def serverParams (server_data : Json) : Except Unit (Json × Json) :=
  if truthy server_data then
    match server_data with
    | .obj _ => .ok (jgetD server_data "ip" (.str "payson.arizona-rp.com"),
                     jgetD server_data "port" (.num 7777))
    | _ => .error ()
  else .ok (.str "payson.arizona-rp.com", .num 7777)

/-- Whether a value is a Python `str`. -/
def isStrJ : Json → Bool
  | .str _ => true
  | _ => false

/-- Nickname after validation (src/main.py:94-96): stripped, then silently
truncated to its first 20 characters. -/
def truncatedNick (nickname : String) : String :=
  let t := pyStrip nickname
  if t.length > 20 then t.take 20 else t

/-- The argument vector built at src/main.py:108-119: the launcher path and
the fixed flag grammar `-c -h <ip> -p <port> -mem 4096 -n <nickname>
-arizona -x -window -cdn 1,1,1`, with `str(server_port)` interpolated. -/
def mkCmd (path : String) (server_ip server_port : Json) (nick : String) : List Json :=
  [.str path, .str "-c", .str "-h", server_ip,
   .str "-p", .str (pyStrS server_port), .str "-mem", .str "4096", .str "-n", .str nick,
   .str "-arizona", .str "-x", .str "-window", .str "-cdn", .str "1,1,1"]

/-- `ArizonaLauncher.launch_game` (src/main.py:81-170) as a function of the
environment: returns the result dict, the side effects performed, and the
configuration dict after the attempt.  The branch order mirrors the
source: launcher-existence check, nickname validation, server parameters
(outer `try`), then `' '.join(cmd)` (raises on a non-str element), then the
inner `try` with kill, spawn and the liveness poll. -/
def launch_game (env : LaunchEnv) (cfg : List (String × Json)) (nickname : String)
    (server_data : Json) : LaunchResult × LaunchEffects × List (String × Json) :=
  let noFx : LaunchEffects := ⟨false, none, none⟩
  if !env.launcherAvailable then
    (⟨false, "Лаунчер не найден: " ++ env.launcher_path, none⟩, noFx, cfg)
  else if pyStrip nickname = "" then
    (⟨false, "Введите никнейм", none⟩, noFx, cfg)
  else
    let nick := truncatedNick nickname
    match serverParams server_data with
    | .error _ => (⟨false, "Критическая ошибка: " ++ env.exnText, none⟩, noFx, cfg)
    | .ok (server_ip, server_port) =>
      let cmd : List Json := mkCmd env.launcher_path server_ip server_port nick
      if !(cmd.all isStrJ) then
        (⟨false, "Критическая ошибка: " ++ env.exnText, none⟩, noFx, cfg)
      else if env.spawnRaises then
        (⟨false, "Ошибка запуска: " ++ env.spawnErrMsg, none⟩, ⟨true, none, none⟩, cfg)
      else if env.processStillRunning then
        let cfg1 := jdictSet cfg "last_nickname" (.str nick)
        let cfg2 :=
          if truthy server_data then jdictSet cfg1 "last_server" (jget server_data "number")
          else cfg1
        (⟨true, "Игра запускается для " ++ nick ++ " на сервере " ++ pyStrS server_ip,
            some env.pid⟩,
         ⟨true, some cmd, some (cfg2, save_config env.saveWriteFails)⟩, cfg2)
      else
        let errMsg :=
          if env.stderrBytes.isEmpty then "Неизвестная ошибка"
          else String.mk (utf8DecodeIgnore env.stderrBytes)
        (⟨false, "Ошибка запуска: " ++ errMsg.take 100, none⟩, ⟨true, some cmd, none⟩, cfg)

/-- `WebViewApp.get_config` (src/main.py:231-237): defaults `''` for the
nickname and `15` for the last server when never persisted. -/
def get_config (launcher_path : String) (cfg : List (String × Json)) : Json :=
  .obj [("launcher_path", .str launcher_path),
        ("last_nickname", (assocLookup cfg "last_nickname").getD (.str "")),
        ("last_server", (assocLookup cfg "last_server").getD (.num 15))]

/-- `WebViewApp.update_nickname` (src/main.py:239-243): stores the nickname
verbatim, saves, and acknowledges success unconditionally.  Returns the new
configuration, whether the save's write completed, and the acknowledgment. -/
def update_nickname (writeFails : Bool) (cfg : List (String × Json)) (nickname : String) :
    List (String × Json) × Bool × Json :=
  (jdictSet cfg "last_nickname" (.str nickname), save_config writeFails,
   .obj [("success", .bool true)])

/-- Whitespace accepted between JSON tokens by `json.loads`. -/
def isJsonWs (c : Char) : Bool := c = ' ' || c = '\t' || c = '\n' || c = '\r'

/-- Skip inter-token whitespace, as `json.loads` does. -/
def skipWs (cs : List Char) : List Char := cs.dropWhile isJsonWs

/-- Escaping of one character by `json.dump` with `ensure_ascii=False`
(CPython's `py_encode_basestring`): quote, backslash and the named control
escapes, `\u00xx` for the remaining control characters, all other
characters verbatim. -/
def escChar (c : Char) : List Char :=
  if c = '"' then ['\\', '"']
  else if c = '\\' then ['\\', '\\']
  else if c = '\n' then ['\\', 'n']
  else if c = '\r' then ['\\', 'r']
  else if c = '\t' then ['\\', 't']
  else if c = '\x08' then ['\\', 'b']
  else if c = '\x0c' then ['\\', 'f']
  else if c.toNat < 0x20 then
    ['\\', 'u', '0', '0', hexChar (c.toNat / 16), hexChar (c.toNat % 16)]
  else [c]

/-- Escaped body of a JSON string literal. -/
def escBody (l : List Char) : List Char := l.flatMap escChar

/-- A JSON string literal as emitted by `json.dump`. -/
def encodeStr (s : String) : List Char := '"' :: escBody s.toList ++ ['"']

/-- `n` space characters. -/
def spacesL (n : Nat) : List Char := List.replicate n ' '

mutual

/-- The text emitted for a value by `json.dump(data, f, indent=4,
ensure_ascii=False)` (src/main.py:201), at current indentation `ind`:
empty containers are `[]`/`{}` on one line; non-empty containers put every
child on its own line indented `ind + 4`, separated by `",\n"`, with the
closer on a line indented `ind`. -/
def prettyV (ind : Nat) : Json → List Char
  | .null => ['n', 'u', 'l', 'l']
  | .bool b => if b then ['t', 'r', 'u', 'e'] else ['f', 'a', 'l', 's', 'e']
  | .num n => intChars n
  | .str s => encodeStr s
  | .arr [] => ['[', ']']
  | .arr (x :: xs) =>
      '[' :: '\n' :: prettyItems (ind + 4) (x :: xs) ++ '\n' :: spacesL ind ++ [']']
  | .obj [] => ['\x7b', '\x7d']
  | .obj (p :: ps) =>
      '\x7b' :: '\n' :: prettyPairs (ind + 4) (p :: ps) ++ '\n' :: spacesL ind ++ ['\x7d']

/-- The `",\n"`-separated, indented items of a non-empty array. -/
def prettyItems (ind : Nat) : List Json → List Char
  | [] => []
  | [x] => spacesL ind ++ prettyV ind x
  | x :: y :: ys => spacesL ind ++ prettyV ind x ++ ',' :: '\n' :: prettyItems ind (y :: ys)

/-- The `",\n"`-separated, indented `"key": value` members of a non-empty
object. -/
def prettyPairs (ind : Nat) : List (String × Json) → List Char
  | [] => []
  | [(k, v)] => spacesL ind ++ encodeStr k ++ ':' :: ' ' :: prettyV ind v
  | (k, v) :: q :: qs =>
      spacesL ind ++ encodeStr k ++ ':' :: ' ' :: prettyV ind v ++
        ',' :: '\n' :: prettyPairs ind (q :: qs)

end

/-- Decoding of a single-character JSON string escape by `json.loads`. -/
def escDecode (c : Char) : Option Char :=
  if c = '"' then some '"'
  else if c = '\\' then some '\\'
  else if c = '/' then some '/'
  else if c = 'b' then some '\x08'
  else if c = 'f' then some '\x0c'
  else if c = 'n' then some '\n'
  else if c = 'r' then some '\r'
  else if c = 't' then some '\t'
  else none

/-- Value of one hexadecimal digit. -/
def hexVal (c : Char) : Option Nat :=
  if '0' ≤ c && c ≤ '9' then some (c.toNat - 48)
  else if 'a' ≤ c && c ≤ 'f' then some (c.toNat - 87)
  else if 'A' ≤ c && c ≤ 'F' then some (c.toNat - 55)
  else none

/-- Body of a JSON string literal after the opening quote, as read by
`json.loads` in strict mode: raw control characters are rejected, escapes
are decoded.  A `\uXXXX` escape denoting a surrogate is outside the model
(see the header); `json.dump` never emits one. -/
def parseStrBody : List Char → Option (List Char × List Char)
  | [] => none
  | '"' :: rest => some ([], rest)
  | '\\' :: 'u' :: rest =>
    (match rest with
     | a :: b :: c :: d :: rest2 =>
       match hexVal a, hexVal b, hexVal c, hexVal d with
       | some ha, some hb, some hc, some hd =>
         let n := ((ha * 16 + hb) * 16 + hc) * 16 + hd
         if n < 0xD800 || 0xE000 ≤ n then
           (parseStrBody rest2).map (fun p => (Char.ofNat n :: p.1, p.2))
         else none
       | _, _, _, _ => none
     | _ => none)
  | '\\' :: e :: rest =>
    (match escDecode e with
     | some c => (parseStrBody rest).map (fun p => (c :: p.1, p.2))
     | none => none)
  | c :: rest =>
    if c.toNat < 0x20 then none
    else (parseStrBody rest).map (fun p => (c :: p.1, p.2))

/-- Whether the next character would extend an integer literal into a
float (`.`, `e`, `E` per the `json` number grammar); floats are outside
the model, so such a literal is rejected rather than decoded. -/
def floatStart : List Char → Bool
  | c :: _ => c = '.' || c = 'e' || c = 'E'
  | [] => false

/-- Numeric value of a decimal digit character. -/
def digToNat (c : Char) : Nat := c.toNat - 48

/-- Consume a run of decimal digits, accumulating their value. -/
def readDigits : Nat → List Char → Nat × List Char
  | acc, [] => (acc, [])
  | acc, c :: rest =>
    if c.isDigit then readDigits (acc * 10 + digToNat c) rest else (acc, c :: rest)

/-- An unsigned JSON integer literal: `0`, or a nonzero digit followed by
digits (`json`'s `(?:0|[1-9]\d*)`). -/
def parseNat : List Char → Option (Nat × List Char)
  | '0' :: rest => if floatStart rest then none else some (0, rest)
  | c :: rest =>
    if c.isDigit then
      let p := readDigits (digToNat c) rest
      if floatStart p.2 then none else some (p.1, p.2)
    else none
  | [] => none

/-- A JSON integer literal with optional minus sign. -/
def parseNum (cs : List Char) : Option (Json × List Char) :=
  match cs with
  | '-' :: cs1 => (parseNat cs1).map (fun p => (Json.num (-(p.1 : Int)), p.2))
  | _ => (parseNat cs).map (fun p => (Json.num ((p.1 : Int)), p.2))

/-- Python dict construction from a pair list (`dict(pairs)` as done by the
`json` decoder): pairs are inserted left to right, a duplicate key keeps
its first position with the last value. -/
def buildDict : List (String × Json) → List (String × Json) → List (String × Json)
  | acc, [] => acc
  | acc, (k, v) :: rest => buildDict (jdictSet acc k v) rest

mutual

/-- The value scanner of `json.loads` with a recursion budget: the caller
positions it at a non-whitespace character.  Mirrors CPython's `scan_once`
for the modelled value universe. -/
def parseVal : Nat → List Char → Option (Json × List Char)
  | 0, _ => none
  | f + 1, cs =>
    match cs with
    | 'n' :: 'u' :: 'l' :: 'l' :: rest => some (.null, rest)
    | 't' :: 'r' :: 'u' :: 'e' :: rest => some (.bool true, rest)
    | 'f' :: 'a' :: 'l' :: 's' :: 'e' :: rest => some (.bool false, rest)
    | '"' :: rest => (parseStrBody rest).map (fun p => (.str (String.mk p.1), p.2))
    | '[' :: rest =>
      (match skipWs rest with
       | ']' :: rest2 => some (.arr [], rest2)
       | cs2 => (parseElems f cs2).map (fun p => (.arr p.1, p.2)))
    | '\x7b' :: rest =>
      (match skipWs rest with
       | '\x7d' :: rest2 => some (.obj [], rest2)
       | cs2 => (parseMembers f cs2).map (fun p => (.obj (buildDict [] p.1), p.2)))
    | _ => parseNum cs

/-- Elements of a non-empty array, positioned at the first element. -/
def parseElems : Nat → List Char → Option (List Json × List Char)
  | 0, _ => none
  | f + 1, cs =>
    match parseVal f cs with
    | none => none
    | some (v, rest) =>
      match skipWs rest with
      | ',' :: rest2 => (parseElems f (skipWs rest2)).map (fun p => (v :: p.1, p.2))
      | ']' :: rest2 => some ([v], rest2)
      | _ => none

/-- Members of a non-empty object, positioned at the first key's quote. -/
def parseMembers : Nat → List Char → Option (List (String × Json) × List Char)
  | 0, _ => none
  | f + 1, cs =>
    match cs with
    | '"' :: rest =>
      (match parseStrBody rest with
       | none => none
       | some (k, rest1) =>
         match skipWs rest1 with
         | ':' :: rest2 =>
           (match parseVal f (skipWs rest2) with
            | none => none
            | some (v, rest3) =>
              match skipWs rest3 with
              | ',' :: rest4 =>
                (parseMembers f (skipWs rest4)).map
                  (fun p => ((String.mk k, v) :: p.1, p.2))
              | '\x7d' :: rest4 => some ([(String.mk k, v)], rest4)
              | _ => none)
         | _ => none)
    | _ => none

end

/-- `json.loads` on the modelled document universe: skip leading
whitespace, scan one value, require only whitespace after it.  The budget
`length + 1` dominates the recursion depth of any value the text can
encode. -/
def jsonLoads (cs : List Char) : Option Json :=
  match parseVal (cs.length + 1) (skipWs cs) with
  | some (v, rest) => if skipWs rest = [] then some v else none
  | none => none

/-- Split a character list at newline characters (Python
`content.split('\n')`). -/
def splitLinesL : List Char → List (List Char)
  | [] => [[]]
  | c :: rest =>
    if c = '\n' then [] :: splitLinesL rest
    else
      match splitLinesL rest with
      | l :: ls => (c :: l) :: ls
      | [] => [[c]]

/-- Join lines with newline characters (`'\n'.join(...)`). -/
def joinLinesL : List (List Char) → List Char
  | [] => []
  | [l] => l
  | l :: ls => l ++ '\n' :: joinLinesL ls

/-- A line's content with leading whitespace removed. -/
def leadStripped (l : List Char) : List Char := l.dropWhile isPySpace

/-- Whether a line matches `^\s*//.*$`: ignoring leading whitespace it
begins with `//`. -/
def isCommentLine (l : List Char) : Bool :=
  match leadStripped l with
  | '/' :: '/' :: _ => true
  | _ => false

/-- Whether `line.strip()` is empty. -/
def isBlankLine (l : List Char) : Bool := (leadStripped l).isEmpty

/-- Replacement performed on one line by the comment-removing `re.sub`. -/
def dropCommentLine (l : List Char) : List Char := if isCommentLine l then [] else l

/-- The comment-removal preprocessing of `read_patches` (src/main.py:183-185):
`re.sub(r'^\s*//.*$', '', content, flags=re.MULTILINE)` followed by
dropping lines whose `strip()` is empty and rejoining with `'\n'`.  The
`re.sub` is modelled per line: a greedy `\s*` can additionally swallow
whole whitespace-only lines preceding a comment, but those lines are
removed by the blank-line filter in either case, so the composition of the
two steps is the same. -/
def stripComments (cs : List Char) : List Char :=
  joinLinesL (((splitLinesL cs).map dropCommentLine).filter (fun l => !isBlankLine l))

/-- `ArizonaLauncher.write_patches` (src/main.py:197-206): the text written
to the backing file (`json.dump(data, f, indent=4, ensure_ascii=False)`). -/
def write_patches (d : Json) : String := String.mk (prettyV 0 d)

/-- `ArizonaLauncher.read_patches` (src/main.py:172-195) applied to the
backing file's text: strip comments and blank lines, then parse; a parse
failure yields the error result (the source's `{"success": False, ...}`
dict, modelled as `Except.error`).  File I/O lives outside the model. -/
def read_patches (content : String) : Except String Json :=
  match jsonLoads (stripComments content.toList) with
  | some data => .ok data
  | none => .error "Ошибка парсинга"

/-- Whether `k` does not occur among the keys of `kvs`. -/
def keyNotIn (k : String) : List (String × Json) → Bool
  | [] => true
  | (k', _) :: rest => k' ≠ k && keyNotIn k rest

mutual

/-- Well-formedness of a modelled value as a Python object: every dict in
the tree has pairwise distinct keys.  Values built by Python (and by
`json.loads`) always satisfy this. -/
def WFb : Json → Bool
  | .arr xs => WFbList xs
  | .obj kvs => WFbKvs kvs
  | _ => true

/-- All elements well-formed. -/
def WFbList : List Json → Bool
  | [] => true
  | x :: xs => WFb x && WFbList xs

/-- Distinct keys at this level and well-formed values. -/
def WFbKvs : List (String × Json) → Bool
  | [] => true
  | (k, v) :: rest => keyNotIn k rest && WFb v && WFbKvs rest

end

mutual

/-- A recursion budget sufficient for `parseVal` to scan the printed form
of a value. -/
def jfuel : Json → Nat
  | .arr xs => 1 + efuel xs
  | .obj kvs => 1 + mfuel kvs
  | _ => 1

/-- Budget for `parseElems` on the item list. -/
def efuel : List Json → Nat
  | [] => 0
  | [x] => 1 + jfuel x
  | x :: y :: ys => 1 + max (jfuel x) (efuel (y :: ys))

/-- Budget for `parseMembers` on the member list. -/
def mfuel : List (String × Json) → Nat
  | [] => 0
  | [(_, v)] => 1 + jfuel v
  | (_, v) :: q :: qs => 1 + max (jfuel v) (mfuel (q :: qs))

end

/-- Tail of a printed array after its first item: separators, the
remaining items, and the closing bracket, followed by `rest`. -/
def itemsTail (j i : Nat) (xs : List Json) (rest : List Char) : List Char :=
  match xs with
  | [] => '\n' :: spacesL i ++ ']' :: rest
  | y :: ys => ',' :: '\n' :: spacesL j ++ prettyV j y ++ itemsTail j i ys rest

/-- Tail of a printed object after its first member. -/
def pairsTail (j i : Nat) (ps : List (String × Json)) (rest : List Char) : List Char :=
  match ps with
  | [] => '\n' :: spacesL i ++ '\x7d' :: rest
  | (k, v) :: qs =>
      ',' :: '\n' :: spacesL j ++ encodeStr k ++ ':' :: ' ' :: prettyV j v ++
        pairsTail j i qs rest

/-- Characters that may legally follow a printed integer literal without
extending or invalidating it (used to state the parsing lemmas): the end
of input, or any character that is not a digit and not `.`/`e`/`E`. -/
def numSafe : List Char → Bool
  | [] => true
  | c :: _ => !(c.isDigit || c = '.' || c = 'e' || c = 'E')

/-- Token-start characters of a printed JSON value. -/
def startOk (c : Char) : Bool :=
  c = '"' || c = '[' || c = '\x7b' || c = '-' || c.isDigit ||
  c = 'n' || c = 't' || c = 'f'

mutual

/-- Shape check for the printed file, positioned at a line start: after
optional indent spaces the line begins with a character that is neither
whitespace, `/`, nor a line break — so no line is blank or a comment. -/
def goodShape : List Char → Bool
  | [] => false
  | c :: rest =>
    if c = ' ' then goodShape rest
    else (!isPySpace c && c ≠ '/') && goodRest rest

/-- Shape check positioned inside a line after its first good character. -/
def goodRest : List Char → Bool
  | [] => true
  | c :: rest => if c = '\n' then goodShape rest else goodRest rest

end

/-- The same launch environment with only the configuration-write failure
flag replaced (used to state that the launch outcome does not depend on
it). -/
def setSaveFails (e : LaunchEnv) (b : Bool) : LaunchEnv :=
  ⟨e.launcher_path, e.launcherAvailable, e.exnText, e.spawnRaises, e.spawnErrMsg,
   e.processStillRunning, e.pid, e.stderrBytes, b⟩

set_option maxRecDepth 40000

/-! ## Helper lemmas -/

theorem assocLookup_jdictSet_self (l : List (String × Json)) (k : String) (v : Json) :
    assocLookup (jdictSet l k v) k = some v := by
  induction l with
  | nil => simp [jdictSet, assocLookup]
  | cons p rest ih =>
    obtain ⟨k', v'⟩ := p
    by_cases h : k' = k <;> simp [jdictSet, assocLookup, h, ih]

theorem assocLookup_jdictSet_other (l : List (String × Json)) (k k' : String) (v : Json)
    (h : k' ≠ k) : assocLookup (jdictSet l k v) k' = assocLookup l k' := by
  induction l with
  | nil => simp [jdictSet, assocLookup]; exact fun a => h a.symm
  | cons p rest ih =>
    obtain ⟨k0, v0⟩ := p
    by_cases h0 : k0 = k <;> by_cases h1 : k0 = k' <;>
      simp_all [jdictSet, assocLookup]

/-! ## Claim C3 -/

/-- C3: for every nickname that is empty or whitespace-only after trimming,
`launch_game` returns a failure outcome, and no process is killed or
spawned and no preference is written — the attempt has no side effect and
leaves the configuration unchanged. -/
theorem launch_rejects_blank_nickname (env : LaunchEnv) (cfg : List (String × Json))
    (nickname : String) (server_data : Json) (h : pyStrip nickname = "") :
    (launch_game env cfg nickname server_data).1.success = false ∧
    (launch_game env cfg nickname server_data).2.1 = ⟨false, none, none⟩ ∧
    (launch_game env cfg nickname server_data).2.2 = cfg := by
  cases hA : env.launcherAvailable <;> simp [launch_game, hA, h]

/-- Witness for C3: the whitespace-only nickname `"   "` is rejected with
no side effects in a concrete environment. -/
theorem launch_rejects_blank_nickname_witness :
    pyStrip "   " = "" ∧
    ((launch_game ⟨"L", true, "E", false, "S", true, 1, [], false⟩ [] "   " .null).1.success
        = false ∧
     (launch_game ⟨"L", true, "E", false, "S", true, 1, [], false⟩ [] "   " .null).2.1
        = ⟨false, none, none⟩ ∧
     (launch_game ⟨"L", true, "E", false, "S", true, 1, [], false⟩ [] "   " .null).2.2 = []) :=
  ⟨by decide, launch_rejects_blank_nickname _ _ _ _ (by decide)⟩

/-! ## Claim C9 -/

/-- C9: when the preference store holds no persisted last-server value (and
no nickname), `get_config` reports the integer `15` as the last server and
the empty string as the last nickname — concrete defaults, not an absent
value. -/
theorem get_config_defaults (launcher_path : String) (cfg : List (String × Json))
    (h1 : assocLookup cfg "last_server" = none)
    (h2 : assocLookup cfg "last_nickname" = none) :
    get_config launcher_path cfg =
      .obj [("launcher_path", .str launcher_path),
            ("last_nickname", .str ""), ("last_server", .num 15)] := by
  simp [get_config, h1, h2]

/-- Witness for C9: the fresh (empty) configuration yields the defaults. -/
theorem get_config_defaults_witness :
    assocLookup [] "last_server" = none ∧ assocLookup [] "last_nickname" = none ∧
    get_config "L" [] =
      .obj [("launcher_path", .str "L"),
            ("last_nickname", .str ""), ("last_server", .num 15)] :=
  ⟨rfl, rfl, get_config_defaults "L" [] rfl rfl⟩

/-! ## Claim C10 -/

/-- C10: `update_nickname` persists every string argument verbatim — no
trimming, truncation or emptiness check — and acknowledges success
unconditionally, whether or not the configuration write fails; the 1..20
nickname constraint exists only on the launch path. -/
theorem update_nickname_verbatim (writeFails : Bool) (cfg : List (String × Json))
    (nickname : String) :
    (update_nickname writeFails cfg nickname).2.2 = .obj [("success", .bool true)] ∧
    assocLookup (update_nickname writeFails cfg nickname).1 "last_nickname"
      = some (.str nickname) :=
  ⟨rfl, assocLookup_jdictSet_self cfg "last_nickname" (.str nickname)⟩

theorem string_take_len_le (s : String) (n : Nat) : (s.take n).length ≤ n := by
  rw [String.take_eq]
  exact List.length_take_le _ _

theorem launch_game_spawned (env : LaunchEnv) (cfg : List (String × Json)) (nickname : String)
    (server_data : Json) (cmd : List Json)
    (h : (launch_game env cfg nickname server_data).2.1.spawnedCmd = some cmd) :
    ∃ server_ip server_port,
      env.launcherAvailable = true ∧ pyStrip nickname ≠ "" ∧
      serverParams server_data = .ok (server_ip, server_port) ∧
      (!(mkCmd env.launcher_path server_ip server_port (truncatedNick nickname)).all isStrJ)
        = false ∧
      env.spawnRaises = false ∧
      cmd = mkCmd env.launcher_path server_ip server_port (truncatedNick nickname) := by
  unfold launch_game at h
  by_cases hA : env.launcherAvailable
  case neg => simp [hA] at h
  by_cases hN : pyStrip nickname = ""
  case pos => simp [hA, hN] at h
  rw [if_neg (by simp [hA]), if_neg hN] at h
  cases hS : serverParams server_data with
  | error e => rw [hS] at h; simp at h
  | ok pr =>
    obtain ⟨sip, sport⟩ := pr
    rw [hS] at h
    simp only at h
    by_cases hJ : (!(mkCmd env.launcher_path sip sport (truncatedNick nickname)).all isStrJ)
        = true
    · rw [if_pos hJ] at h; simp at h
    · rw [if_neg hJ] at h
      by_cases hR : env.spawnRaises = true
      · rw [if_pos hR] at h; simp at h
      · rw [if_neg hR] at h
        refine ⟨sip, sport, hA, hN, rfl, by simpa using hJ, by simpa using hR, ?_⟩
        by_cases hP : env.processStillRunning = true
        · rw [if_pos hP] at h; simpa using h.symm
        · rw [if_neg hP] at h; simpa using h.symm

theorem launch_game_success_inv (env : LaunchEnv) (cfg : List (String × Json))
    (nickname : String) (server_data : Json)
    (h : (launch_game env cfg nickname server_data).1.success = true) :
    ∃ server_ip server_port,
      env.launcherAvailable = true ∧ pyStrip nickname ≠ "" ∧
      serverParams server_data = .ok (server_ip, server_port) ∧
      (!(mkCmd env.launcher_path server_ip server_port (truncatedNick nickname)).all isStrJ)
        = false ∧
      env.spawnRaises = false ∧ env.processStillRunning = true := by
  unfold launch_game at h
  by_cases hA : env.launcherAvailable
  case neg => simp [hA] at h
  by_cases hN : pyStrip nickname = ""
  case pos => simp [hA, hN] at h
  rw [if_neg (by simp [hA]), if_neg hN] at h
  cases hS : serverParams server_data with
  | error e => rw [hS] at h; simp at h
  | ok pr =>
    obtain ⟨sip, sport⟩ := pr
    rw [hS] at h
    simp only at h
    by_cases hJ : (!(mkCmd env.launcher_path sip sport (truncatedNick nickname)).all isStrJ)
        = true
    · rw [if_pos hJ] at h; simp at h
    · rw [if_neg hJ] at h
      by_cases hR : env.spawnRaises = true
      · rw [if_pos hR] at h; simp at h
      · rw [if_neg hR] at h
        by_cases hP : env.processStillRunning = true
        · exact ⟨sip, sport, hA, hN, rfl, by simpa using hJ, by simpa using hR, hP⟩
        · rw [if_neg hP] at h; simp at h

theorem launch_game_run (env : LaunchEnv) (cfg : List (String × Json)) (nickname : String)
    (server_data : Json) (sip sport : Json)
    (hA : env.launcherAvailable = true) (hN : pyStrip nickname ≠ "")
    (hS : serverParams server_data = .ok (sip, sport))
    (hJ : (!(mkCmd env.launcher_path sip sport (truncatedNick nickname)).all isStrJ) = false)
    (hR : env.spawnRaises = false) :
    launch_game env cfg nickname server_data =
      if env.processStillRunning then
        (⟨true, "Игра запускается для " ++ truncatedNick nickname ++ " на сервере "
            ++ pyStrS sip, some env.pid⟩,
         ⟨true, some (mkCmd env.launcher_path sip sport (truncatedNick nickname)),
            some ((if truthy server_data then
                     jdictSet (jdictSet cfg "last_nickname" (.str (truncatedNick nickname)))
                       "last_server" (jget server_data "number")
                   else jdictSet cfg "last_nickname" (.str (truncatedNick nickname))),
                  save_config env.saveWriteFails)⟩,
         (if truthy server_data then
            jdictSet (jdictSet cfg "last_nickname" (.str (truncatedNick nickname)))
              "last_server" (jget server_data "number")
          else jdictSet cfg "last_nickname" (.str (truncatedNick nickname))))
      else
        (⟨false, "Ошибка запуска: " ++ (if env.stderrBytes.isEmpty then "Неизвестная ошибка"
            else String.mk (utf8DecodeIgnore env.stderrBytes)).take 100, none⟩,
         ⟨true, some (mkCmd env.launcher_path sip sport (truncatedNick nickname)), none⟩,
         cfg) := by
  unfold launch_game
  rw [if_neg (by simp [hA]), if_neg hN, hS]
  simp only
  rw [if_neg (by simp [hJ]), if_neg (by simp [hR])]

/-! ## Claim C4 -/

/-- C4: for every nickname whose trimmed form exceeds 20 characters, the
argument vector handed to the spawned process carries, directly after the
`-n` flag, exactly the first 20 characters of the trimmed nickname. -/
theorem launch_truncates_long_nickname (env : LaunchEnv) (cfg : List (String × Json))
    (nickname : String) (server_data : Json) (cmd : List Json)
    (hlen : (pyStrip nickname).length > 20)
    (h : (launch_game env cfg nickname server_data).2.1.spawnedCmd = some cmd) :
    cmd[8]? = some (.str "-n") ∧ cmd[9]? = some (.str ((pyStrip nickname).take 20)) := by
  obtain ⟨sip, sport, hA, hN, hS, hJ, hR, hC⟩ :=
    launch_game_spawned env cfg nickname server_data cmd h
  subst hC
  refine ⟨rfl, ?_⟩
  show some (Json.str (truncatedNick nickname)) = some (Json.str ((pyStrip nickname).take 20))
  simp [truncatedNick, hlen]

/-- Witness for C4: a 26-character nickname is spawned with exactly its
first 20 characters after `-n`. -/
theorem launch_truncates_long_nickname_witness :
    (pyStrip "abcdefghijklmnopqrstuvwxyz").length > 20 ∧
    ((launch_game ⟨"L", true, "E", false, "S", true, 1, [], false⟩ []
        "abcdefghijklmnopqrstuvwxyz" .null).2.1.spawnedCmd =
      some (mkCmd "L" (.str "payson.arizona-rp.com") (.num 7777) "abcdefghijklmnopqrst")) ∧
    ((mkCmd "L" (.str "payson.arizona-rp.com") (.num 7777) "abcdefghijklmnopqrst")[8]?
        = some (.str "-n") ∧
     (mkCmd "L" (.str "payson.arizona-rp.com") (.num 7777) "abcdefghijklmnopqrst")[9]?
        = some (.str ((pyStrip "abcdefghijklmnopqrstuvwxyz").take 20))) :=
  ⟨by decide, rfl,
   launch_truncates_long_nickname ⟨"L", true, "E", false, "S", true, 1, [], false⟩ []
     "abcdefghijklmnopqrstuvwxyz" .null _ (by decide) rfl⟩

/-! ## Claim C6 -/

/-- C6: once a process has been spawned, the poll after the fixed wait
classifies the attempt: an already-exited process yields a failure whose
message is the fixed prefix plus an excerpt of at most 100 characters
which, when stderr is non-empty, is exactly the first 100 characters of
the ignore-errors UTF-8 decoding of stderr (a total function — undecodable
bytes are dropped, never raised); a still-running process yields success
carrying the spawned process's identifier. -/
theorem launch_liveness_classification (env : LaunchEnv) (cfg : List (String × Json))
    (nickname : String) (server_data : Json) (cmd : List Json)
    (h : (launch_game env cfg nickname server_data).2.1.spawnedCmd = some cmd) :
    (env.processStillRunning = true →
        (launch_game env cfg nickname server_data).1.success = true ∧
        (launch_game env cfg nickname server_data).1.pid = some env.pid) ∧
    (env.processStillRunning = false →
        (launch_game env cfg nickname server_data).1.success = false ∧
        (launch_game env cfg nickname server_data).1.pid = none ∧
        ∃ excerpt : String,
          (launch_game env cfg nickname server_data).1.message =
            "Ошибка запуска: " ++ excerpt ∧
          excerpt.length ≤ 100 ∧
          (env.stderrBytes ≠ [] →
             excerpt = (String.mk (utf8DecodeIgnore env.stderrBytes)).take 100)) := by
  obtain ⟨sip, sport, hA, hN, hS, hJ, hR, hC⟩ :=
    launch_game_spawned env cfg nickname server_data cmd h
  have hrun := launch_game_run env cfg nickname server_data sip sport hA hN hS hJ hR
  rw [hrun]
  cases hP : env.processStillRunning
  · refine ⟨fun hc => Bool.noConfusion hc, fun _ => ⟨rfl, rfl,
      (if env.stderrBytes.isEmpty then "Неизвестная ошибка"
        else String.mk (utf8DecodeIgnore env.stderrBytes)).take 100, rfl,
      string_take_len_le _ _, fun hne => ?_⟩⟩
    rw [if_neg (by simp [hne])]
  · exact ⟨fun _ => ⟨rfl, rfl⟩, fun hc => Bool.noConfusion hc⟩

/-- Witness for C6: in an environment whose process exits immediately with
stderr byte `0x41`, the spawn happens and the outcome is a failure; with a
still-running process the outcome succeeds with the environment's pid. -/
theorem launch_liveness_classification_witness :
    ((launch_game ⟨"L", true, "E", false, "S", false, 7, [0x41],
        false⟩ [] "nick" .null).2.1.spawnedCmd =
      some (mkCmd "L" (.str "payson.arizona-rp.com") (.num 7777) "nick")) ∧
    ((launch_game ⟨"L", true, "E", false, "S", false, 7, [0x41],
        false⟩ [] "nick" .null).1.success = false) ∧
    ((launch_game ⟨"L", true, "E", false, "S", false, 7, [0x41],
        false⟩ [] "nick" .null).1.pid = none) ∧
    ((launch_game ⟨"L", true, "E", false, "S", true, 7, [],
        false⟩ [] "nick" .null).1.success = true) ∧
    ((launch_game ⟨"L", true, "E", false, "S", true, 7, [],
        false⟩ [] "nick" .null).1.pid = some 7) :=
  ⟨rfl,
   (((launch_liveness_classification ⟨"L", true, "E", false, "S", false, 7, [0x41], false⟩
       [] "nick" .null _ rfl).2 rfl)).1,
   (((launch_liveness_classification ⟨"L", true, "E", false, "S", false, 7, [0x41], false⟩
       [] "nick" .null _ rfl).2 rfl)).2.1,
   ((launch_liveness_classification ⟨"L", true, "E", false, "S", true, 7, [], false⟩
       [] "nick" .null _ rfl).1 rfl).1,
   ((launch_liveness_classification ⟨"L", true, "E", false, "S", true, 7, [], false⟩
       [] "nick" .null _ rfl).1 rfl).2⟩

/-! ## Claim C8 -/

/-- C8: every launch that reaches the `Succeeded` classification hands the
validated nickname — and, when a truthy server override was supplied, the
override's `number` value — to the configuration store, and the outcome
does not depend on whether that configuration write fails (`save_config`
catches and only logs the failure). -/
theorem launch_success_persists_preferences (env : LaunchEnv) (cfg : List (String × Json))
    (nickname : String) (server_data : Json)
    (h : (launch_game env cfg nickname server_data).1.success = true) :
    (∃ cfg2 ok2,
        (launch_game env cfg nickname server_data).2.1.savedConfig = some (cfg2, ok2) ∧
        assocLookup cfg2 "last_nickname" = some (.str (truncatedNick nickname)) ∧
        (truthy server_data = true →
            assocLookup cfg2 "last_server" = some (jget server_data "number"))) ∧
    (∀ writeFails : Bool,
        (launch_game (setSaveFails env writeFails) cfg nickname server_data).1 =
          (launch_game env cfg nickname server_data).1) := by
  obtain ⟨sip, sport, hA, hN, hS, hJ, hR, hP⟩ :=
    launch_game_success_inv env cfg nickname server_data h
  have hrun := launch_game_run env cfg nickname server_data sip sport hA hN hS hJ hR
  constructor
  · rw [hrun]
    simp only [hP, if_true]
    refine ⟨_, _, rfl, ?_, ?_⟩
    · by_cases hT : truthy server_data = true
      · simp only [hT, if_true]
        rw [assocLookup_jdictSet_other _ _ _ _ (by decide)]
        exact assocLookup_jdictSet_self _ _ _
      · rw [if_neg hT]
        exact assocLookup_jdictSet_self _ _ _
    · intro hT
      simp only [hT, if_true]
      exact assocLookup_jdictSet_self _ _ _
  · intro writeFails
    have hrun2 := launch_game_run (setSaveFails env writeFails) cfg nickname server_data
      sip sport hA hN hS hJ hR
    rw [hrun, hrun2]
    simp [setSaveFails, hP]

/-- Witness for C8: a successful concrete launch with a server override
persists nickname and server number, and flipping the write-failure flag
does not change the outcome. -/
theorem launch_success_persists_preferences_witness :
    ((launch_game ⟨"L", true, "E", false, "S", true, 7, [], false⟩ [] "nick"
        (.obj [("number", .num 5)])).1.success = true) ∧
    ((launch_game (setSaveFails ⟨"L", true, "E", false, "S", true, 7, [], false⟩ true) []
        "nick" (.obj [("number", .num 5)])).1 =
      (launch_game ⟨"L", true, "E", false, "S", true, 7, [], false⟩ [] "nick"
        (.obj [("number", .num 5)])).1) ∧
    ((launch_game ⟨"L", true, "E", false, "S", true, 7, [], false⟩ [] "nick"
        (.obj [("number", .num 5)])).2.1.savedConfig =
      some ([("last_nickname", .str "nick"), ("last_server", .num 5)], true)) :=
  ⟨rfl,
   (launch_success_persists_preferences ⟨"L", true, "E", false, "S", true, 7, [], false⟩
      [] "nick" (.obj [("number", .num 5)]) rfl).2 true,
   rfl⟩

/-! ## Claim C1 -/

/-- C1 counterexample: the claim says a present-but-falsy value of the
last-tried alternative still yields the stated default; but for the entry
`\x7b"id": 0\x7d` at position 0 the code's `server.get('id', idx + 1)`
returns the present falsy `0`, not the claimed default `1`. -/
theorem normalize_falsy_id_counterexample :
    (normalizeServer 0 (.obj [("id", .num 0)])).map (fun r => jget r "number")
      = some (.num 0) ∧ Json.num 0 ≠ Json.num 1 :=
  ⟨rfl, by decide⟩

/-- C1 (amended): for each canonical field the alternatives before the
last are tried by truthiness — the first present-and-truthy value wins,
at every position of every chain — but the final lookup of each chain is
a plain `.get(key, default)`: a present value is taken even when falsy,
and the stated default applies only when that key is absent;
`recommended` falls back to the heuristic `online > 400 and queue == 0`
when neither `recomend` nor `recommended` is present-and-truthy. -/
theorem normalize_field_selection (idx : Nat) (kvs : List (String × Json)) (r : Json)
    (h : normalizeServer idx (.obj kvs) = some r) :
    ((∀ v, assocLookup kvs "number" = some v → truthy v = true →
        jget r "number" = v) ∧
     (truthy (jget (.obj kvs) "number") = false →
        ∀ v, assocLookup kvs "serverNumber" = some v → truthy v = true →
          jget r "number" = v) ∧
     (truthy (jget (.obj kvs) "number") = false →
        truthy (jget (.obj kvs) "serverNumber") = false →
        (∀ v, assocLookup kvs "id" = some v → jget r "number" = v) ∧
        (assocLookup kvs "id" = none → jget r "number" = .num (idx + 1)))) ∧
    ((∀ v, assocLookup kvs "name" = some v → jget r "name" = v) ∧
     (assocLookup kvs "name" = none →
        jget r "name" = .str ("Server " ++ pyStrS (jget r "number")))) ∧
    ((∀ v, assocLookup kvs "online" = some v → truthy v = true →
        jget r "online" = v) ∧
     (truthy (jget (.obj kvs) "online") = false →
        (∀ v, assocLookup kvs "playersOnline" = some v → jget r "online" = v) ∧
        (assocLookup kvs "playersOnline" = none → jget r "online" = .num 0))) ∧
    ((∀ v, assocLookup kvs "queue" = some v → truthy v = true →
        jget r "queue" = v) ∧
     (truthy (jget (.obj kvs) "queue") = false →
        (∀ v, assocLookup kvs "queueLength" = some v → jget r "queue" = v) ∧
        (assocLookup kvs "queueLength" = none → jget r "queue" = .num 0))) ∧
    ((∀ v, assocLookup kvs "maxplayers" = some v → truthy v = true →
        jget r "maxplayers" = v) ∧
     (truthy (jget (.obj kvs) "maxplayers") = false →
        ∀ v, assocLookup kvs "maxPlayers" = some v → truthy v = true →
          jget r "maxplayers" = v) ∧
     (truthy (jget (.obj kvs) "maxplayers") = false →
        truthy (jget (.obj kvs) "maxPlayers") = false →
        (∀ v, assocLookup kvs "maxonline" = some v → jget r "maxplayers" = v) ∧
        (assocLookup kvs "maxonline" = none → jget r "maxplayers" = .num 1000))) ∧
    ((∀ v, assocLookup kvs "ip" = some v → jget r "ip" = v) ∧
     (assocLookup kvs "ip" = none →
        jget r "ip" = .str ("server" ++ pyStrS (jget r "number") ++ ".arizona-rp.com"))) ∧
    ((∀ v, assocLookup kvs "port" = some v → jget r "port" = v) ∧
     (assocLookup kvs "port" = none → jget r "port" = .num 7777)) ∧
    ((∀ v, assocLookup kvs "recomend" = some v → truthy v = true →
        jget r "recommended" = v) ∧
     (truthy (jgetD (.obj kvs) "recomend" (.bool false)) = false →
        ∀ v, assocLookup kvs "recommended" = some v → truthy v = true →
          jget r "recommended" = v) ∧
     (truthy (jgetD (.obj kvs) "recomend" (.bool false)) = false →
      truthy (jgetD (.obj kvs) "recommended" (.bool false)) = false →
        ∃ g, pyGtInt (jget r "online") 400 = .ok g ∧
          jget r "recommended" = .bool (g && pyEqZero (jget r "queue")))) := by
  unfold normalizeServer at h
  simp only at h
  cases hRec : pyRecommend (.obj kvs)
      (pyOr (jget (.obj kvs) "online") (jgetD (.obj kvs) "playersOnline" (.num 0)))
      (pyOr (jget (.obj kvs) "queue") (jgetD (.obj kvs) "queueLength" (.num 0))) with
  | error e => rw [hRec] at h; simp at h
  | ok rec =>
    rw [hRec] at h
    simp only [Option.some.injEq] at h
    subst h
    refine ⟨⟨fun v hv ht => ?_, fun h1 v hv ht => ?_,
        fun h1 h2 => ⟨fun v hv => ?_, fun hv => ?_⟩⟩,
      ⟨fun v hv => ?_, fun hv => ?_⟩,
      ⟨fun v hv ht => ?_, fun h1 => ⟨fun v hv => ?_, fun hv => ?_⟩⟩,
      ⟨fun v hv ht => ?_, fun h1 => ⟨fun v hv => ?_, fun hv => ?_⟩⟩,
      ⟨fun v hv ht => ?_, fun h1 v hv ht => ?_,
        fun h1 h2 => ⟨fun v hv => ?_, fun hv => ?_⟩⟩,
      ⟨fun v hv => ?_, fun hv => ?_⟩,
      ⟨fun v hv => ?_, fun hv => ?_⟩,
      ⟨fun v hv ht => ?_, fun h1 v hv ht => ?_, fun ha hb => ?_⟩⟩
    case _ => simp [pyOr, jget, jgetD, assocLookup, hv, ht]
    case _ => simp only [jget] at h1; simp [pyOr, jget, jgetD, assocLookup, h1, hv, ht]
    case _ => simp only [jget] at h1 h2; simp [pyOr, jget, jgetD, assocLookup, h1, h2, hv]
    case _ => simp only [jget] at h1 h2; simp [pyOr, jget, jgetD, assocLookup, h1, h2, hv]
    case _ => simp [jget, jgetD, assocLookup, hv]
    case _ => simp [jget, jgetD, assocLookup, hv]
    case _ => simp [pyOr, jget, jgetD, assocLookup, hv, ht]
    case _ => simp only [jget] at h1; simp [pyOr, jget, jgetD, assocLookup, h1, hv]
    case _ => simp only [jget] at h1; simp [pyOr, jget, jgetD, assocLookup, h1, hv]
    case _ => simp [pyOr, jget, jgetD, assocLookup, hv, ht]
    case _ => simp only [jget] at h1; simp [pyOr, jget, jgetD, assocLookup, h1, hv]
    case _ => simp only [jget] at h1; simp [pyOr, jget, jgetD, assocLookup, h1, hv]
    case _ => simp [pyOr, jget, jgetD, assocLookup, hv, ht]
    case _ => simp only [jget] at h1; simp [pyOr, jget, jgetD, assocLookup, h1, hv, ht]
    case _ => simp only [jget] at h1 h2; simp [pyOr, jget, jgetD, assocLookup, h1, h2, hv]
    case _ => simp only [jget] at h1 h2; simp [pyOr, jget, jgetD, assocLookup, h1, h2, hv]
    case _ => simp [jget, jgetD, assocLookup, hv]
    case _ => simp [jget, jgetD, assocLookup, hv]
    case _ => simp [jget, jgetD, assocLookup, hv]
    case _ => simp [jget, jgetD, assocLookup, hv]
    case _ =>
      unfold pyRecommend at hRec
      have ha : jgetD (.obj kvs) "recomend" (.bool false) = v := by
        simp [jgetD, hv]
      rw [ha, if_pos ht] at hRec
      simp only [Except.ok.injEq] at hRec
      subst hRec
      simp [jget, assocLookup]
    case _ =>
      unfold pyRecommend at hRec
      rw [if_neg (by simp [h1])] at hRec
      have hb : jgetD (.obj kvs) "recommended" (.bool false) = v := by
        simp [jgetD, hv]
      rw [hb, if_pos ht] at hRec
      simp only [Except.ok.injEq] at hRec
      subst hRec
      simp [jget, assocLookup]
    case _ =>
      unfold pyRecommend at hRec
      rw [if_neg (by simp [ha]), if_neg (by simp [hb])] at hRec
      cases hG : pyGtInt (pyOr (jget (.obj kvs) "online")
          (jgetD (.obj kvs) "playersOnline" (.num 0))) 400 with
      | error e => rw [hG] at hRec; simp [Bind.bind, Except.bind] at hRec
      | ok g =>
        rw [hG] at hRec
        simp only [Bind.bind, Except.bind] at hRec
        refine ⟨g, by simpa [jget, assocLookup] using hG, ?_⟩
        cases g with
        | true =>
          simp only [if_pos] at hRec
          simp only [Except.ok.injEq] at hRec
          subst hRec
          simp [jget, assocLookup]
        | false =>
          simp only [Bool.false_eq_true, if_false, Except.ok.injEq] at hRec
          subst hRec
          simp [jget, assocLookup]

/-- Witness for C1: the entry with the present falsy `id = 0` normalizes
with number `0` taken verbatim (last-chain `.get`), and an entry whose
`serverNumber`, `maxPlayers` and `recomend` alternatives are
present-and-truthy has each of them win its chain. -/
theorem normalize_field_selection_witness :
    normalizeServer 0 (.obj [("id", .num 0)]) =
      some (.obj [("number", .num 0), ("name", .str "Server 0"), ("online", .num 0),
        ("queue", .num 0), ("recommended", .bool false),
        ("ip", .str "server0.arizona-rp.com"), ("port", .num 7777),
        ("maxplayers", .num 1000)]) ∧
    jget (.obj [("number", .num 0), ("name", .str "Server 0"), ("online", .num 0),
        ("queue", .num 0), ("recommended", .bool false),
        ("ip", .str "server0.arizona-rp.com"), ("port", .num 7777),
        ("maxplayers", .num 1000)]) "number" = .num 0 ∧
    normalizeServer 3 (.obj [("serverNumber", .num 9), ("maxPlayers", .num 50),
        ("recomend", .str "yes")]) =
      some (.obj [("number", .num 9), ("name", .str "Server 9"), ("online", .num 0),
        ("queue", .num 0), ("recommended", .str "yes"),
        ("ip", .str "server9.arizona-rp.com"), ("port", .num 7777),
        ("maxplayers", .num 50)]) ∧
    jget (.obj [("number", .num 9), ("name", .str "Server 9"), ("online", .num 0),
        ("queue", .num 0), ("recommended", .str "yes"),
        ("ip", .str "server9.arizona-rp.com"), ("port", .num 7777),
        ("maxplayers", .num 50)]) "number" = .num 9 ∧
    jget (.obj [("number", .num 9), ("name", .str "Server 9"), ("online", .num 0),
        ("queue", .num 0), ("recommended", .str "yes"),
        ("ip", .str "server9.arizona-rp.com"), ("port", .num 7777),
        ("maxplayers", .num 50)]) "maxplayers" = .num 50 ∧
    jget (.obj [("number", .num 9), ("name", .str "Server 9"), ("online", .num 0),
        ("queue", .num 0), ("recommended", .str "yes"),
        ("ip", .str "server9.arizona-rp.com"), ("port", .num 7777),
        ("maxplayers", .num 50)]) "recommended" = .str "yes" :=
  ⟨rfl,
   ((normalize_field_selection 0 [("id", .num 0)] _ rfl).1.2.2 rfl rfl).1 (.num 0) rfl,
   rfl,
   (normalize_field_selection 3 [("serverNumber", .num 9), ("maxPlayers", .num 50),
      ("recomend", .str "yes")] _ rfl).1.2.1 rfl (.num 9) rfl rfl,
   (normalize_field_selection 3 [("serverNumber", .num 9), ("maxPlayers", .num 50),
      ("recomend", .str "yes")] _ rfl).2.2.2.2.1.2.1 rfl (.num 50) rfl rfl,
   (normalize_field_selection 3 [("serverNumber", .num 9), ("maxPlayers", .num 50),
      ("recomend", .str "yes")] _ rfl).2.2.2.2.2.2.2.1 (.str "yes") rfl rfl⟩

/-! ## Claim C5 -/

theorem assocLookup_any (kvs : List (String × Json)) (k : String) (v : Json)
    (h : assocLookup kvs k = some v) : kvs.any (fun p => p.1 = k) = true := by
  induction kvs with
  | nil => simp [assocLookup] at h
  | cons p rest ih =>
    obtain ⟨k0, v0⟩ := p
    by_cases h0 : k0 = k
    · simp [h0]
    · rw [assocLookup, if_neg h0] at h
      simp [ih h, h0]

theorem any_assocLookup (kvs : List (String × Json)) (k : String)
    (h : kvs.any (fun p => p.1 = k) = true) : ∃ v, assocLookup kvs k = some v := by
  induction kvs with
  | nil => simp at h
  | cons p rest ih =>
    obtain ⟨k0, v0⟩ := p
    by_cases h0 : k0 = k
    · exact ⟨v0, by simp [assocLookup, h0]⟩
    · simp only [List.any_cons, h0, Bool.false_or] at h
      obtain ⟨v, hv⟩ := ih (by simpa using h)
      exact ⟨v, by simp [assocLookup, h0, hv]⟩

/-- C5 counterexample: the claim says a list payload is used directly
(yielding a roster), but for the list `["query"]` the membership test
`'query' in data` succeeds and `data['query']` then raises, so the fetch
reports failure instead of returning the (empty) roster. -/
theorem roster_shape_counterexample :
    get_servers (some ⟨200, some (.arr [.str "query"])⟩) = none ∧
    get_servers (some ⟨200, some (.arr [.str "query"])⟩) ≠ some (processFrom 0 [.str "query"]) :=
  ⟨rfl, by decide⟩

/-- C5 (amended): shape detection proceeds in the stated order, except
that the step-1 test `'query' in data` is applied to every payload: a
list containing the string `"query"` (and a string containing the
substring `"query"`) makes the `data['query']` lookup raise, which the
fetch reports as failure; a list not containing `"query"` is used
directly, an object with a `query` list uses it, any other object uses
its values, and every other shape yields a reported failure, never a
roster. -/
theorem shape_detection_order :
    (∀ kvs xs, assocLookup kvs "query" = some (.arr xs) →
        selectServerList (.obj kvs) = .ok (some xs)) ∧
    (∀ xs, xs.contains (Json.str "query") = false →
        selectServerList (.arr xs) = .ok (some xs)) ∧
    (∀ xs, xs.contains (Json.str "query") = true →
        selectServerList (.arr xs) = .error ()) ∧
    (∀ kvs, (∀ xs, assocLookup kvs "query" ≠ some (.arr xs)) →
        selectServerList (.obj kvs) = .ok (some (kvs.map Prod.snd))) ∧
    (selectServerList .null = .error ()) ∧
    (∀ b, selectServerList (.bool b) = .error ()) ∧
    (∀ n, selectServerList (.num n) = .error ()) ∧
    (∀ s : String, seqContains "query".toList s.toList = false →
        selectServerList (.str s) = .ok none) ∧
    (∀ s : String, seqContains "query".toList s.toList = true →
        selectServerList (.str s) = .error ()) ∧
    (∀ data, selectServerList data = .error () →
        get_servers (some ⟨200, some data⟩) = none) ∧
    (∀ data, selectServerList data = .ok none →
        get_servers (some ⟨200, some data⟩) = none) := by
  refine ⟨?_, ?_, ?_, ?_, rfl, fun b => rfl, fun n => rfl, ?_, ?_, ?_, ?_⟩
  · intro kvs xs h
    have hm := assocLookup_any kvs "query" _ h
    simp [selectServerList, pyInQuery, hm, pyGetItemQuery, h, Bind.bind, Except.bind, pure, Except.pure]
  · intro xs h
    have h' : Json.str "query" ∉ xs := by simpa using h
    simp [selectServerList, pyInQuery, h', Bind.bind, Except.bind, pure, Except.pure]
  · intro xs h
    have h' : Json.str "query" ∈ xs := by simpa using h
    simp [selectServerList, pyInQuery, h', pyGetItemQuery, Bind.bind, Except.bind, pure,
      Except.pure]
  · intro kvs h
    by_cases hm : kvs.any (fun p => p.1 = "query") = true
    · obtain ⟨v, hv⟩ := any_assocLookup kvs "query" hm
      have hvn : ∀ xs, v ≠ .arr xs := fun xs hx => h xs (hx ▸ hv)
      simp only [selectServerList, pyInQuery, hm, pyGetItemQuery, hv, Bind.bind, Except.bind, pure, Except.pure]
      cases v <;> simp_all
    · simp only [selectServerList, pyInQuery, Bind.bind, Except.bind,
        Bool.not_eq_true] at hm ⊢
      simp [hm, pure, Except.pure]
  · intro s h
    replace h : seqContains ['q', 'u', 'e', 'r', 'y'] s.data = false := h
    simp [selectServerList, pyInQuery, h, Bind.bind, Except.bind, pure, Except.pure]
  · intro s h
    replace h : seqContains ['q', 'u', 'e', 'r', 'y'] s.data = true := h
    simp [selectServerList, pyInQuery, h, pyGetItemQuery, Bind.bind, Except.bind, pure,
      Except.pure]
  · intro data h
    simp [get_servers, h]
  · intro data h
    simp [get_servers, h]

/-- Witness for C5: each detection branch evaluated at a concrete
payload. -/
theorem shape_detection_order_witness :
    assocLookup [("query", Json.arr [.num 1]), ("z", .num 2)] "query"
      = some (.arr [.num 1]) ∧
    selectServerList (.obj [("query", .arr [.num 1]), ("z", .num 2)]) = .ok (some [.num 1]) ∧
    [Json.num 5].contains (Json.str "query") = false ∧
    selectServerList (.arr [.num 5]) = .ok (some [.num 5]) ∧
    [Json.str "query"].contains (Json.str "query") = true ∧
    selectServerList (.arr [.str "query"]) = .error () ∧
    get_servers (some ⟨200, some (.arr [.str "query"])⟩) = none :=
  ⟨rfl, shape_detection_order.1 _ _ rfl, rfl, shape_detection_order.2.1 _ rfl, rfl,
   shape_detection_order.2.2.1 _ rfl,
   shape_detection_order.2.2.2.2.2.2.2.2.2.1 _ (shape_detection_order.2.2.1 _ rfl)⟩

/-! ## Claim C7 -/

/-- C7: a transport failure, a non-200 status, or an undecodable body
yields `none` — never a partial or default roster — while, once a payload
is decoded and shaped, the fetch returns the normalization of the whole
list, and a single malformed entry (one whose normalization yields
`none`) is skipped with the remaining entries still returned at their
original positions. -/
theorem roster_failure_and_skip :
    (get_servers none = none) ∧
    (∀ r : HttpResponse, r.status ≠ 200 → get_servers (some r) = none) ∧
    (∀ s : Nat, get_servers (some ⟨s, none⟩) = none) ∧
    (∀ data xs, selectServerList data = .ok (some xs) →
        get_servers (some ⟨200, some data⟩) = some (processFrom 0 xs)) ∧
    (∀ i pre bad post, normalizeServer (i + pre.length) bad = none →
        processFrom i (pre ++ bad :: post) =
          processFrom i pre ++ processFrom (i + pre.length + 1) post) := by
  refine ⟨rfl, ?_, ?_, ?_, ?_⟩
  · intro r h
    obtain ⟨s, b⟩ := r
    simp only [get_servers]
    rw [if_pos (by simpa using h)]
  · intro s
    by_cases h : s = 200 <;> simp [get_servers, h]
  · intro data xs h
    simp [get_servers, h]
  · intro i pre bad post h
    induction pre generalizing i with
    | nil =>
      simp only [List.length_nil, Nat.add_zero] at h
      simp [processFrom, h]
    | cons a pre ih =>
      have h' : normalizeServer (i + 1 + pre.length) bad = none := by
        have e : i + 1 + pre.length = i + (a :: pre).length := by simp; omega
        rw [e]; exact h
      have e2 : i + 1 + pre.length + 1 = i + (a :: pre).length + 1 := by simp; omega
      simp only [List.cons_append, processFrom]
      cases hA : normalizeServer i a <;>
        simp only [ih (i + 1) h', e2, List.cons_append, List.append_eq]

/-- Witness for C7: the failure branches and the skip property at
concrete inputs (the string entry `"bad"` is skipped, its neighbours are
kept). -/
theorem roster_failure_and_skip_witness :
    get_servers none = none ∧
    (⟨404, some .null⟩ : HttpResponse).status ≠ 200 ∧
    get_servers (some ⟨404, some .null⟩) = none ∧
    get_servers (some ⟨200, none⟩) = none ∧
    normalizeServer (0 + [Json.obj [("name", .str "a")]].length) (.str "bad") = none ∧
    processFrom 0 ([Json.obj [("name", .str "a")]] ++ .str "bad" :: [Json.obj []]) =
      processFrom 0 [Json.obj [("name", .str "a")]] ++
        processFrom (0 + [Json.obj [("name", .str "a")]].length + 1) [Json.obj []] :=
  ⟨roster_failure_and_skip.1, by decide,
   roster_failure_and_skip.2.1 ⟨404, some .null⟩ (by decide),
   roster_failure_and_skip.2.2.1 200, rfl,
   roster_failure_and_skip.2.2.2.2 0 [Json.obj [("name", .str "a")]] (.str "bad")
     [Json.obj []] rfl⟩

theorem splitLinesL_ne_nil (cs : List Char) : splitLinesL cs ≠ [] := by
  induction cs with
  | nil => simp [splitLinesL]
  | cons c rest ih =>
    by_cases h : c = '\n'
    · simp [splitLinesL, h]
    · simp only [splitLinesL, if_neg h]
      cases hs : splitLinesL rest with
      | nil => simp
      | cons l ls => simp

theorem joinLinesL_splitLinesL (cs : List Char) : joinLinesL (splitLinesL cs) = cs := by
  induction cs with
  | nil => rfl
  | cons c rest ih =>
    by_cases h : c = '\n'
    · subst h
      simp only [splitLinesL, if_pos rfl]
      cases hs : splitLinesL rest with
      | nil => exact absurd hs (splitLinesL_ne_nil rest)
      | cons l ls =>
        rw [hs] at ih
        simp only [joinLinesL]
        cases ls <;> simp_all [joinLinesL]
    · simp only [splitLinesL, if_neg h]
      cases hs : splitLinesL rest with
      | nil => exact absurd hs (splitLinesL_ne_nil rest)
      | cons l ls =>
        rw [hs] at ih
        cases ls <;> simp_all [joinLinesL]

theorem good_lines (cs : List Char) :
    (goodShape cs = true →
       ∀ l ∈ splitLinesL cs, isBlankLine l = false ∧ isCommentLine l = false) ∧
    (goodRest cs = true →
       ∀ l ∈ (splitLinesL cs).tail, isBlankLine l = false ∧ isCommentLine l = false) := by
  induction cs with
  | nil =>
    refine ⟨fun h => by simp [goodShape] at h, fun _ l hl => by simp [splitLinesL] at hl⟩
  | cons c rest ih =>
    obtain ⟨l0, ls, hs⟩ : ∃ l0 ls, splitLinesL rest = l0 :: ls := by
      cases h' : splitLinesL rest with
      | nil => exact absurd h' (splitLinesL_ne_nil rest)
      | cons a b => exact ⟨a, b, rfl⟩
    constructor
    · intro h
      by_cases hc : c = ' '
      · subst hc
        simp only [goodShape] at h
        rw [if_pos trivial] at h
        have hall := ih.1 h
        rw [hs] at hall
        intro l hl
        rw [splitLinesL, if_neg (by decide : ¬(' ' = '
')), hs] at hl
        simp only [List.mem_cons] at hl
        rcases hl with rfl | hl
        · have h0 := hall l0 (by simp)
          refine ⟨?_, ?_⟩
          · simpa [isBlankLine, leadStripped, isPySpace] using h0.1
          · simpa [isCommentLine, leadStripped, isPySpace] using h0.2
        · exact hall l (by simp [hl])
      · simp only [goodShape, if_neg hc, Bool.and_eq_true, Bool.not_eq_true'] at h
        obtain ⟨⟨hws, hsl⟩, hrest⟩ := h
        have hnl : c ≠ '
' := by
          intro e; subst e; simp [isPySpace] at hws
        have htail := ih.2 hrest
        rw [hs] at htail
        intro l hl
        rw [splitLinesL, if_neg hnl, hs] at hl
        simp only [List.mem_cons] at hl
        rcases hl with rfl | hl
        · refine ⟨?_, ?_⟩
          · simp [isBlankLine, leadStripped, hws]
          · simp only [isCommentLine, leadStripped, List.dropWhile_cons, hws]
            simp only [Bool.false_eq_true, if_false]
            split
            · rename_i heq
              simp only [List.cons.injEq] at heq
              exact absurd heq.1 (by simpa using hsl)
            · rfl
        · exact htail l (by simpa using hl)
    · intro h
      by_cases hc : c = '
'
      · subst hc
        simp only [goodRest] at h
        rw [if_pos trivial] at h
        rw [splitLinesL, if_pos rfl, List.tail_cons]
        exact ih.1 h
      · simp only [goodRest, if_neg hc] at h
        rw [splitLinesL, if_neg hc, hs]
        have htail := ih.2 h
        rw [hs] at htail
        simpa using htail

theorem stripComments_of_good (cs : List Char) (h : goodShape cs = true) :
    stripComments cs = cs := by
  have hl := (good_lines cs).1 h
  unfold stripComments
  have hmap : (splitLinesL cs).map dropCommentLine = splitLinesL cs := by
    have he : ∀ l ∈ splitLinesL cs, dropCommentLine l = id l := fun l hm => by
      simp [dropCommentLine, (hl l hm).2]
    rw [List.map_congr_left he, List.map_id]
  have hfilt : (splitLinesL cs).filter (fun l => !isBlankLine l) = splitLinesL cs := by
    rw [List.filter_eq_self]
    intro l hm
    simp [(hl l hm).1]
  rw [hmap, hfilt, joinLinesL_splitLinesL]

theorem goodRest_append_of_no_newline (l rest : List Char)
    (h : ∀ c ∈ l, c ≠ '\n') : goodRest (l ++ rest) = goodRest rest := by
  induction l with
  | nil => rfl
  | cons c t ih =>
    simp only [List.cons_append, goodRest, if_neg (h c (by simp))]
    exact ih (fun c hc => h c (by simp [hc]))

theorem goodShape_spacesL_append (n : Nat) (l : List Char) :
    goodShape (spacesL n ++ l) = goodShape l := by
  induction n with
  | zero => rfl
  | succ n ih =>
    simp only [spacesL, List.replicate_succ, List.cons_append, goodShape, if_pos rfl]
    exact ih

theorem hexChar_ne_newline (m : Nat) (h : m < 16) : hexChar m ≠ '\n' := by
  interval_cases m <;> decide

theorem escChar_no_newline (c : Char) : ∀ e ∈ escChar c, e ≠ '\n' := by
  intro e he
  unfold escChar at he
  by_cases h0 : c = '"'
  · rw [if_pos h0] at he
    simp at he
    rcases he with rfl | rfl <;> decide
  rw [if_neg h0] at he
  by_cases h1 : c = '\\'
  · rw [if_pos h1] at he
    simp at he
    rcases he with rfl | rfl <;> decide
  rw [if_neg h1] at he
  by_cases h2 : c = '\n'
  · rw [if_pos h2] at he
    simp at he
    rcases he with rfl | rfl <;> decide
  rw [if_neg h2] at he
  by_cases h3 : c = '\r'
  · rw [if_pos h3] at he
    simp at he
    rcases he with rfl | rfl <;> decide
  rw [if_neg h3] at he
  by_cases h4 : c = '\t'
  · rw [if_pos h4] at he
    simp at he
    rcases he with rfl | rfl <;> decide
  rw [if_neg h4] at he
  by_cases h5 : c = '\x08'
  · rw [if_pos h5] at he
    simp at he
    rcases he with rfl | rfl <;> decide
  rw [if_neg h5] at he
  by_cases h6 : c = '\x0c'
  · rw [if_pos h6] at he
    simp at he
    rcases he with rfl | rfl <;> decide
  rw [if_neg h6] at he
  by_cases h7 : c.toNat < 0x20
  · rw [if_pos h7] at he
    simp at he
    rcases he with rfl | rfl | rfl | rfl | rfl
    · decide
    · decide
    · decide
    · exact hexChar_ne_newline _ (by omega)
    · exact hexChar_ne_newline _ (by omega)
  · rw [if_neg h7] at he
    simp at he
    subst he
    intro heq
    subst heq
    simp at h7

theorem escBody_no_newline (l : List Char) : ∀ e ∈ escBody l, e ≠ '\n' := by
  intro e he
  unfold escBody at he
  simp only [List.mem_flatMap] at he
  obtain ⟨c, _, hc⟩ := he
  exact escChar_no_newline c e hc

theorem digitChar_isDigit (m : Nat) (h : m < 10) : (digitChar m).isDigit = true := by
  interval_cases m <;> decide

theorem digitChar_facts (m : Nat) (h : m < 10) :
    isPySpace (digitChar m) = false ∧ isJsonWs (digitChar m) = false ∧
    digitChar m ≠ '/' ∧ digitChar m ≠ ']' ∧ digitChar m ≠ '\x7d' ∧ digitChar m ≠ '\n' := by
  interval_cases m <;> exact ⟨by decide, by decide, by decide, by decide, by decide, by decide⟩

theorem natCharsF_digits (fuel : Nat) : ∀ n, ∀ c ∈ natCharsF fuel n, c.isDigit = true := by
  induction fuel with
  | zero => intro n c hc; simp [natCharsF] at hc
  | succ fuel ih =>
    intro n c hc
    unfold natCharsF at hc
    by_cases h : n < 10
    · rw [if_pos h] at hc
      simp at hc
      subst hc
      exact digitChar_isDigit n h
    · rw [if_neg h] at hc
      simp only [List.mem_append, List.mem_singleton] at hc
      rcases hc with hc | rfl
      · exact ih _ c hc
      · exact digitChar_isDigit _ (Nat.mod_lt _ (by omega))

theorem natCharsF_head (fuel n : Nat) :
    ∃ m t, m < 10 ∧ natCharsF (fuel + 1) n = digitChar m :: t := by
  induction fuel generalizing n with
  | zero =>
    unfold natCharsF
    by_cases h : n < 10
    · rw [if_pos h]; exact ⟨n, [], h, rfl⟩
    · rw [if_neg h]
      exact ⟨n % 10, [], Nat.mod_lt _ (by omega), by simp [natCharsF]⟩
  | succ fuel ih =>
    by_cases h : n < 10
    · refine ⟨n, [], h, ?_⟩
      unfold natCharsF
      rw [if_pos h]
    · obtain ⟨m, t, hm, ht⟩ := ih (n / 10)
      refine ⟨m, t ++ [digitChar (n % 10)], hm, ?_⟩
      conv => rw [natCharsF]
      rw [if_neg h, ht]
      rfl

theorem intChars_no_newline (n : Int) : ∀ c ∈ intChars n, c ≠ '\n' := by
  intro c hc
  unfold intChars at hc
  have hd : ∀ c ∈ natChars n.natAbs, c ≠ '\n' := by
    intro c hc
    have := natCharsF_digits _ _ c hc
    intro e
    subst e
    simp [Char.isDigit] at this
  split at hc
  · simp only [List.mem_cons] at hc
    rcases hc with rfl | hc
    · decide
    · exact hd c hc
  · exact hd c hc

theorem prettyV_head_facts (ind : Nat) (d : Json) :
    ∃ c t, prettyV ind d = c :: t ∧ isPySpace c = false ∧ isJsonWs c = false ∧
      c ≠ '/' ∧ c ≠ ']' ∧ c ≠ '\x7d' ∧ c ≠ '\n' := by
  cases d with
  | null => exact ⟨'n', _, rfl, by decide, by decide, by decide, by decide, by decide, by decide⟩
  | bool b =>
    cases b with
    | false =>
      exact ⟨'f', _, rfl, by decide, by decide, by decide, by decide, by decide, by decide⟩
    | true =>
      exact ⟨'t', _, rfl, by decide, by decide, by decide, by decide, by decide, by decide⟩
  | num n =>
    show ∃ c t, intChars n = c :: t ∧ _
    unfold intChars
    by_cases h : n < 0
    · rw [if_pos h]
      exact ⟨'-', _, rfl, by decide, by decide, by decide, by decide, by decide, by decide⟩
    · rw [if_neg h]
      obtain ⟨m, t, hm, ht⟩ := natCharsF_head n.natAbs n.natAbs
      obtain ⟨f1, f2, f3, f4, f5, f6⟩ := digitChar_facts m hm
      exact ⟨digitChar m, t, ht, f1, f2, f3, f4, f5, f6⟩
  | str s => exact ⟨'"', _, rfl, by decide, by decide, by decide, by decide, by decide, by decide⟩
  | arr xs =>
    cases xs with
    | nil => exact ⟨'[', _, rfl, by decide, by decide, by decide, by decide, by decide, by decide⟩
    | cons x xs =>
      exact ⟨'[', _, rfl, by decide, by decide, by decide, by decide, by decide, by decide⟩
  | obj kvs =>
    cases kvs with
    | nil =>
      exact ⟨'\x7b', _, rfl, by decide, by decide, by decide, by decide, by decide, by decide⟩
    | cons p ps =>
      exact ⟨'\x7b', _, rfl, by decide, by decide, by decide, by decide, by decide, by decide⟩

theorem skipWs_spacesL_append (n : Nat) (l : List Char) :
    skipWs (spacesL n ++ l) = skipWs l := by
  induction n with
  | zero => rfl
  | succ n ih =>
    simp only [spacesL, List.replicate_succ, List.cons_append, skipWs, List.dropWhile_cons]
    rw [if_pos (by decide)]
    exact ih

theorem skipWs_newline (l : List Char) : skipWs ('\n' :: l) = skipWs l := by
  simp only [skipWs, List.dropWhile_cons]
  rw [if_pos (by decide)]

theorem skipWs_space (l : List Char) : skipWs (' ' :: l) = skipWs l := by
  simp only [skipWs, List.dropWhile_cons]
  rw [if_pos (by decide)]

theorem skipWs_of_head (c : Char) (l : List Char) (h : isJsonWs c = false) :
    skipWs (c :: l) = c :: l := by
  simp only [skipWs, List.dropWhile_cons, h]
  rw [if_neg (by simp [h])]

theorem goodShape_cons (c : Char) (t : List Char) (h1 : isPySpace c = false)
    (h2 : c ≠ '/') (h3 : goodRest t = true) : goodShape (c :: t) = true := by
  have hsp : ¬(c = ' ') := fun e => by subst e; simp [isPySpace] at h1
  simp only [goodShape, if_neg hsp]
  simp [h1, h2, h3]

theorem goodRest_cons (c : Char) (t : List Char) (h : c ≠ '\n') :
    goodRest (c :: t) = goodRest t := by
  simp only [goodRest, if_neg h]

theorem good_token (l rest : List Char) (c : Char) (t : List Char)
    (he : l = c :: t) (h1 : isPySpace c = false) (h2 : c ≠ '/')
    (hnn : ∀ e ∈ l, e ≠ '\n') (h : goodRest rest = true) :
    goodRest (l ++ rest) = true ∧ goodShape (l ++ rest) = true := by
  constructor
  · rw [goodRest_append_of_no_newline _ _ hnn]
    exact h
  · subst he
    simp only [List.cons_append]
    apply goodShape_cons _ _ h1 h2
    rw [goodRest_append_of_no_newline _ _ (fun e hee => hnn e (by simp [hee]))]
    exact h

theorem encodeStr_no_newline (s : String) : ∀ e ∈ encodeStr s, e ≠ '\n' := by
  intro e he
  unfold encodeStr at he
  rcases List.mem_cons.mp he with rfl | he2
  · decide
  rcases List.mem_append.mp he2 with h3 | h4
  · exact escBody_no_newline _ e h3
  · have h5 := List.mem_singleton.mp h4
    subst h5
    decide

theorem no_newline_of_all (l : List Char) (h : l.all (fun c => c != '\n') = true) :
    ∀ e ∈ l, e ≠ '\n' := by
  intro e he
  have := List.all_eq_true.mp h e he
  simpa using this

mutual

theorem goodV (d : Json) (ind : Nat) (rest : List Char) (h : goodRest rest = true) :
    goodRest (prettyV ind d ++ rest) = true ∧ goodShape (prettyV ind d ++ rest) = true :=
  match d with
  | .null => good_token (prettyV ind .null) rest 'n' ['u', 'l', 'l'] rfl (by decide)
      (by decide) (no_newline_of_all _
        (by show (['n', 'u', 'l', 'l'].all fun c => c != '\n') = true; decide)) h
  | .bool true => good_token (prettyV ind (.bool true)) rest 't' ['r', 'u', 'e'] rfl
      (by decide) (by decide) (no_newline_of_all _
        (by show (['t', 'r', 'u', 'e'].all fun c => c != '\n') = true; decide)) h
  | .bool false => good_token (prettyV ind (.bool false)) rest 'f' ['a', 'l', 's', 'e'] rfl
      (by decide) (by decide) (no_newline_of_all _
        (by show (['f', 'a', 'l', 's', 'e'].all fun c => c != '\n') = true; decide)) h
  | .num n => by
    obtain ⟨c, t, hct, f1, _, f3, _, _, _⟩ := prettyV_head_facts ind (.num n)
    exact good_token _ rest c t hct f1 f3 (intChars_no_newline n) h
  | .str s =>
    good_token _ rest '"' _ rfl (by decide) (by decide) (encodeStr_no_newline s) h
  | .arr [] => good_token (prettyV ind (.arr [])) rest '[' [']'] rfl (by decide)
      (by decide) (no_newline_of_all _
        (by show (['[', ']'].all fun c => c != '\n') = true; decide)) h
  | .obj [] => good_token (prettyV ind (.obj [])) rest '\x7b' ['\x7d'] rfl (by decide)
      (by decide) (no_newline_of_all _
        (by show (['\x7b', '\x7d'].all fun c => c != '\n') = true; decide)) h
  | .arr (x :: xs) => by
    have hclose : goodRest ('\n' :: (spacesL ind ++ ']' :: rest)) = true := by
      rw [goodRest, if_pos rfl, goodShape_spacesL_append]
      exact goodShape_cons _ _ (by decide) (by decide) h
    have hitems :=
      goodItems (x :: xs) (ind + 4) ('\n' :: (spacesL ind ++ ']' :: rest)) (by simp) hclose
    have hsh : prettyV ind (.arr (x :: xs)) ++ rest =
        '[' :: '\n' :: (prettyItems (ind + 4) (x :: xs) ++
          ('\n' :: (spacesL ind ++ ']' :: rest))) := by
      show ('[' :: '\n' :: prettyItems (ind + 4) (x :: xs) ++
          '\n' :: spacesL ind ++ [']']) ++ rest = _
      simp [List.append_assoc]
    rw [hsh]
    constructor
    · rw [goodRest_cons _ _ (by decide), goodRest, if_pos rfl]
      exact hitems
    · apply goodShape_cons _ _ (by decide) (by decide)
      rw [goodRest, if_pos rfl]
      exact hitems
  | .obj (p :: ps) => by
    have hclose : goodRest ('\n' :: (spacesL ind ++ '\x7d' :: rest)) = true := by
      rw [goodRest, if_pos rfl, goodShape_spacesL_append]
      exact goodShape_cons _ _ (by decide) (by decide) h
    have hpairs :=
      goodPairs (p :: ps) (ind + 4) ('\n' :: (spacesL ind ++ '\x7d' :: rest)) (by simp) hclose
    have hsh : prettyV ind (.obj (p :: ps)) ++ rest =
        '\x7b' :: '\n' :: (prettyPairs (ind + 4) (p :: ps) ++
          ('\n' :: (spacesL ind ++ '\x7d' :: rest))) := by
      show ('\x7b' :: '\n' :: prettyPairs (ind + 4) (p :: ps) ++
          '\n' :: spacesL ind ++ ['\x7d']) ++ rest = _
      simp [List.append_assoc]
    rw [hsh]
    constructor
    · rw [goodRest_cons _ _ (by decide), goodRest, if_pos rfl]
      exact hpairs
    · apply goodShape_cons _ _ (by decide) (by decide)
      rw [goodRest, if_pos rfl]
      exact hpairs

theorem goodItems (xs : List Json) (ind : Nat) (rest : List Char) (hne : xs ≠ [])
    (h : goodRest rest = true) : goodShape (prettyItems ind xs ++ rest) = true :=
  match xs with
  | [] => absurd rfl hne
  | [x] => by
    show goodShape ((spacesL ind ++ prettyV ind x) ++ rest) = true
    rw [List.append_assoc, goodShape_spacesL_append]
    exact (goodV x ind rest h).2
  | x :: y :: ys => by
    have hrest2 : goodRest (',' :: '\n' :: (prettyItems ind (y :: ys) ++ rest)) = true := by
      rw [goodRest_cons _ _ (by decide), goodRest, if_pos rfl]
      exact goodItems (y :: ys) ind rest (by simp) h
    have hv := (goodV x ind (',' :: '\n' :: (prettyItems ind (y :: ys) ++ rest)) hrest2).2
    show goodShape ((spacesL ind ++ prettyV ind x ++
        ',' :: '\n' :: prettyItems ind (y :: ys)) ++ rest) = true
    have e : (spacesL ind ++ prettyV ind x ++ ',' :: '\n' :: prettyItems ind (y :: ys)) ++ rest
        = spacesL ind ++ (prettyV ind x ++ (',' :: '\n' :: (prettyItems ind (y :: ys) ++ rest))) := by
      simp [List.append_assoc]
    rw [e, goodShape_spacesL_append]
    exact hv

theorem goodPairs (ps : List (String × Json)) (ind : Nat) (rest : List Char) (hne : ps ≠ [])
    (h : goodRest rest = true) : goodShape (prettyPairs ind ps ++ rest) = true :=
  match ps with
  | [] => absurd rfl hne
  | [(k, v)] => by
    have hv := (goodV v ind rest h).1
    show goodShape ((spacesL ind ++ encodeStr k ++ ':' :: ' ' :: prettyV ind v) ++ rest) = true
    have e : (spacesL ind ++ encodeStr k ++ ':' :: ' ' :: prettyV ind v) ++ rest =
        spacesL ind ++ ('"' :: (escBody k.toList ++
          ('"' :: ':' :: ' ' :: (prettyV ind v ++ rest)))) := by
      show (spacesL ind ++ ('"' :: escBody k.toList ++ ['"']) ++
        ':' :: ' ' :: prettyV ind v) ++ rest = _
      simp [List.append_assoc]
    rw [e, goodShape_spacesL_append]
    apply goodShape_cons _ _ (by decide) (by decide)
    rw [goodRest_append_of_no_newline _ _ (escBody_no_newline _),
      goodRest_cons _ _ (by decide), goodRest_cons _ _ (by decide),
      goodRest_cons _ _ (by decide)]
    exact hv
  | (k, v) :: q :: qs => by
    have hrest2 : goodRest (',' :: '\n' :: (prettyPairs ind (q :: qs) ++ rest)) = true := by
      rw [goodRest_cons _ _ (by decide), goodRest, if_pos rfl]
      exact goodPairs (q :: qs) ind rest (by simp) h
    have hv := (goodV v ind (',' :: '\n' :: (prettyPairs ind (q :: qs) ++ rest)) hrest2).1
    show goodShape ((spacesL ind ++ encodeStr k ++ ':' :: ' ' :: prettyV ind v ++
        ',' :: '\n' :: prettyPairs ind (q :: qs)) ++ rest) = true
    have e : (spacesL ind ++ encodeStr k ++ ':' :: ' ' :: prettyV ind v ++
        ',' :: '\n' :: prettyPairs ind (q :: qs)) ++ rest =
        spacesL ind ++ ('"' :: (escBody k.toList ++ ('"' :: ':' :: ' ' ::
          (prettyV ind v ++ (',' :: '\n' :: (prettyPairs ind (q :: qs) ++ rest)))))) := by
      show (spacesL ind ++ ('"' :: escBody k.toList ++ ['"']) ++ ':' :: ' ' :: prettyV ind v ++
        ',' :: '\n' :: prettyPairs ind (q :: qs)) ++ rest = _
      simp [List.append_assoc]
    rw [e, goodShape_spacesL_append]
    apply goodShape_cons _ _ (by decide) (by decide)
    rw [goodRest_append_of_no_newline _ _ (escBody_no_newline _),
      goodRest_cons _ _ (by decide), goodRest_cons _ _ (by decide),
      goodRest_cons _ _ (by decide)]
    exact hv

end

theorem stripComments_prettyV (d : Json) : stripComments (prettyV 0 d) = prettyV 0 d := by
  have hg := (goodV d 0 [] rfl).2
  rw [List.append_nil] at hg
  exact stripComments_of_good _ hg

theorem hexVal_hexChar (m : Nat) (h : m < 16) : hexVal (hexChar m) = some m := by
  interval_cases m <;> decide

theorem parseStrBody_cons (c : Char) (t : List Char) (h1 : c ≠ '"') (h2 : c ≠ '\\') :
    parseStrBody (c :: t) =
      if c.toNat < 0x20 then none
      else (parseStrBody t).map (fun p => (c :: p.1, p.2)) := by
  rw [parseStrBody.eq_def]
  split <;> simp_all

theorem parseStrBody_escBody (l : List Char) (rest : List Char) :
    parseStrBody (escBody l ++ '"' :: rest) = some (l, rest) := by
  induction l with
  | nil => rfl
  | cons c t ih =>
    have he : escBody (c :: t) = escChar c ++ escBody t := by simp [escBody]
    rw [he, List.append_assoc]
    unfold escChar
    by_cases h1 : c = '"'
    · subst h1
      rw [if_pos rfl]
      show parseStrBody ('\\' :: '"' :: (escBody t ++ '"' :: rest)) = some ('"' :: t, rest)
      simp [parseStrBody, escDecode, ih]
    rw [if_neg h1]
    by_cases h2 : c = '\\'
    · subst h2
      rw [if_pos rfl]
      show parseStrBody ('\\' :: '\\' :: (escBody t ++ '"' :: rest)) = some ('\\' :: t, rest)
      simp [parseStrBody, escDecode, ih]
    rw [if_neg h2]
    by_cases h3 : c = '\n'
    · subst h3
      rw [if_pos rfl]
      show parseStrBody ('\\' :: 'n' :: (escBody t ++ '"' :: rest)) = some ('\n' :: t, rest)
      simp [parseStrBody, escDecode, ih]
    rw [if_neg h3]
    by_cases h4 : c = '\r'
    · subst h4
      rw [if_pos rfl]
      show parseStrBody ('\\' :: 'r' :: (escBody t ++ '"' :: rest)) = some ('\r' :: t, rest)
      simp [parseStrBody, escDecode, ih]
    rw [if_neg h4]
    by_cases h5 : c = '\t'
    · subst h5
      rw [if_pos rfl]
      show parseStrBody ('\\' :: 't' :: (escBody t ++ '"' :: rest)) = some ('\t' :: t, rest)
      simp [parseStrBody, escDecode, ih]
    rw [if_neg h5]
    by_cases h6 : c = '\x08'
    · subst h6
      rw [if_pos rfl]
      show parseStrBody ('\\' :: 'b' :: (escBody t ++ '"' :: rest)) = some ('\x08' :: t, rest)
      simp [parseStrBody, escDecode, ih]
    rw [if_neg h6]
    by_cases h7 : c = '\x0c'
    · subst h7
      rw [if_pos rfl]
      show parseStrBody ('\\' :: 'f' :: (escBody t ++ '"' :: rest)) = some ('\x0c' :: t, rest)
      simp [parseStrBody, escDecode, ih]
    rw [if_neg h7]
    by_cases h8 : c.toNat < 0x20
    · rw [if_pos h8]
      show parseStrBody ('\\' :: 'u' :: '0' :: '0' :: hexChar (c.toNat / 16) ::
        hexChar (c.toNat % 16) :: (escBody t ++ '"' :: rest)) = some (c :: t, rest)
      rw [parseStrBody]
      rw [hexVal_hexChar (c.toNat / 16) (by omega), hexVal_hexChar (c.toNat % 16) (by omega)]
      rw [show hexVal '0' = some 0 from by decide]
      dsimp only
      rw [show ((0 * 16 + 0) * 16 + c.toNat / 16) * 16 + c.toNat % 16 = c.toNat from by omega]
      rw [if_pos (show (decide (c.toNat < 55296) || decide (57344 ≤ c.toNat)) = true by
        simp only [Bool.or_eq_true, decide_eq_true_eq]
        omega)]
      rw [Char.ofNat_toNat, ih]
      rfl
    · rw [if_neg h8]
      show parseStrBody (c :: (escBody t ++ '"' :: rest)) = some (c :: t, rest)
      rw [parseStrBody_cons c _ h1 h2, if_neg h8, ih]
      rfl

theorem numSafe_floatStart (r : List Char) (h : numSafe r = true) : floatStart r = false := by
  cases r with
  | nil => rfl
  | cons c t => simp_all [numSafe, floatStart]

theorem readDigits_stop (acc : Nat) (r : List Char) (h : numSafe r = true) :
    readDigits acc r = (acc, r) := by
  cases r with
  | nil => rfl
  | cons c t =>
    simp only [numSafe, Bool.not_eq_true'] at h
    simp only [readDigits]
    rw [if_neg (by simp_all)]

theorem digToNat_digitChar (m : Nat) (h : m < 10) : digToNat (digitChar m) = m := by
  interval_cases m <;> decide

theorem readDigits_append (A : List Char) (hA : ∀ c ∈ A, c.isDigit = true) :
    ∀ (r : List Char) (acc : Nat),
      readDigits acc (A ++ r) = readDigits (A.foldl (fun a c => a * 10 + digToNat c) acc) r := by
  induction A with
  | nil => intro r acc; rfl
  | cons c t ih =>
    intro r acc
    simp only [List.cons_append, readDigits]
    rw [if_pos (hA c (by simp))]
    simp only [List.append_eq]
    rw [ih (fun c hc => hA c (by simp [hc])) r _]
    rfl

theorem natCharsF_foldl (fuel : Nat) : ∀ n acc, n < fuel →
    (natCharsF fuel n).foldl (fun a c => a * 10 + digToNat c) acc =
      acc * 10 ^ (natCharsF fuel n).length + n := by
  induction fuel with
  | zero => intro n acc h; omega
  | succ fuel ih =>
    intro n acc h
    unfold natCharsF
    by_cases h10 : n < 10
    · rw [if_pos h10]
      simp [List.foldl, digToNat_digitChar n h10]
    · rw [if_neg h10]
      have hdiv : n / 10 < fuel := by
        have := Nat.div_lt_self (show 0 < n by omega) (show 1 < 10 by omega)
        omega
      rw [List.foldl_append, ih (n / 10) acc hdiv]
      simp only [List.foldl_cons, List.foldl_nil, List.length_append, List.length_cons,
        List.length_nil]
      rw [digToNat_digitChar _ (Nat.mod_lt _ (by omega))]
      have hp : 10 ^ ((natCharsF fuel (n / 10)).length + (0 + 1)) =
          10 ^ (natCharsF fuel (n / 10)).length * 10 := by
        rw [Nat.add_comm 0 1]
        rw [pow_succ]
      rw [hp]
      have hdm := Nat.div_add_mod n 10
      set k := 10 ^ (natCharsF fuel (n / 10)).length
      ring_nf
      omega

theorem natCharsF_head_ne_zero (fuel : Nat) : ∀ n, n ≠ 0 → n < fuel + 1 → ∀ c t,
    natCharsF (fuel + 1) n = c :: t → c ≠ '0' := by
  induction fuel with
  | zero =>
    intro n hn hlt c t hct
    omega
  | succ fuel ih =>
    intro n hn hlt c t hct
    unfold natCharsF at hct
    by_cases h10 : n < 10
    · rw [if_pos h10] at hct
      simp only [List.cons.injEq] at hct
      obtain ⟨h1, _⟩ := hct
      subst h1
      interval_cases n
      all_goals first
      | exact absurd rfl hn
      | decide
    · rw [if_neg h10] at hct
      obtain ⟨m, t', hm, ht'⟩ := natCharsF_head fuel (n / 10)
      rw [ht'] at hct
      simp only [List.cons_append, List.cons.injEq] at hct
      obtain ⟨h1, _⟩ := hct
      subst h1
      have hdiv0 : n / 10 ≠ 0 := by
        have : 1 ≤ n / 10 := Nat.one_le_div_iff (by omega) |>.mpr (by omega)
        omega
      have hdivlt : n / 10 < fuel + 1 := by
        have := Nat.div_lt_self (show 0 < n by omega) (show 1 < 10 by omega)
        omega
      exact ih (n / 10) hdiv0 hdivlt (digitChar m) t' ht'

theorem parseNat_cons_ne_zero (c : Char) (t : List Char) (h : c ≠ '0') :
    parseNat (c :: t) =
      if c.isDigit then
        (if floatStart (readDigits (digToNat c) t).2 then none
         else some (readDigits (digToNat c) t))
      else none := by
  rw [parseNat.eq_def]
  split
  · simp_all
  · rename_i heq
    simp only [List.cons.injEq] at heq
    simp [heq.1, heq.2]
  · simp_all

theorem parseNat_natChars (n : Nat) (rest : List Char) (h : numSafe rest = true) :
    parseNat (natChars n ++ rest) = some (n, rest) := by
  by_cases h0 : n = 0
  · subst h0
    show parseNat ('0' :: rest) = some (0, rest)
    rw [parseNat]
    rw [if_neg (by simp [numSafe_floatStart rest h])]
  · obtain ⟨m, t, hm, ht⟩ := natCharsF_head n n
    have hne0 := natCharsF_head_ne_zero n n h0 (by omega) (digitChar m) t ht
    unfold natChars
    rw [ht, List.cons_append]
    rw [parseNat_cons_ne_zero _ _ hne0]
    rw [if_pos (digitChar_isDigit m hm)]
    have hdig : ∀ c ∈ t, c.isDigit = true := by
      intro c hc
      exact natCharsF_digits (n + 1) n c (by rw [ht]; simp [hc])
    rw [readDigits_append t hdig rest (digToNat (digitChar m))]
    have hfold := natCharsF_foldl (n + 1) n 0 (by omega)
    rw [ht] at hfold
    simp only [List.foldl_cons] at hfold
    rw [digToNat_digitChar m hm] at hfold
    simp only [Nat.zero_mul, Nat.zero_add] at hfold
    rw [digToNat_digitChar m hm, hfold]
    rw [readDigits_stop _ _ h]
    rw [if_neg (by simp [numSafe_floatStart rest h])]

theorem parseNum_cons_not_minus (c : Char) (t : List Char) (h : c ≠ '-') :
    parseNum (c :: t) = (parseNat (c :: t)).map (fun p => (Json.num ((p.1 : Int)), p.2)) := by
  rw [parseNum.eq_def]
  split
  · simp_all
  · rfl

theorem parseNum_intChars (i : Int) (rest : List Char) (h : numSafe rest = true) :
    parseNum (intChars i ++ rest) = some (.num i, rest) := by
  unfold intChars
  by_cases hneg : i < 0
  · rw [if_pos hneg]
    show parseNum ('-' :: (natChars i.natAbs ++ rest)) = some (.num i, rest)
    rw [parseNum]
    rw [parseNat_natChars _ _ h]
    simp only [Option.map_some']
    have he : -((i.natAbs : Int)) = i := by omega
    rw [he]
  · rw [if_neg hneg]
    obtain ⟨m, t, hm, ht⟩ := natCharsF_head i.natAbs i.natAbs
    have hc : digitChar m ≠ '-' := by
      interval_cases m
      all_goals decide
    unfold natChars
    rw [ht, List.cons_append, parseNum_cons_not_minus _ _ hc, ← List.cons_append, ← ht]
    show (parseNat (natChars i.natAbs ++ rest)).map _ = _
    rw [parseNat_natChars _ _ h]
    simp only [Option.map_some']
    have he : ((i.natAbs : Int)) = i := by omega
    rw [he]

theorem prettyItems_decomp (j i : Nat) (x : Json) (xs : List Json) (rest : List Char) :
    prettyItems j (x :: xs) ++ ('\n' :: (spacesL i ++ ']' :: rest)) =
      spacesL j ++ (prettyV j x ++ itemsTail j i xs rest) := by
  induction xs generalizing x with
  | nil =>
    show (spacesL j ++ prettyV j x) ++ _ = _
    rw [itemsTail]
    simp [List.append_assoc]
  | cons y ys ih =>
    show (spacesL j ++ prettyV j x ++ ',' :: '\n' :: prettyItems j (y :: ys)) ++ _ = _
    rw [itemsTail]
    have hih := ih y
    simp only [List.append_assoc, List.cons_append] at hih ⊢
    rw [hih]

theorem prettyPairs_decomp (j i : Nat) (k : String) (v : Json)
    (ps : List (String × Json)) (rest : List Char) :
    prettyPairs j ((k, v) :: ps) ++ ('\n' :: (spacesL i ++ '\x7d' :: rest)) =
      spacesL j ++ (encodeStr k ++ ':' :: ' ' :: (prettyV j v ++ pairsTail j i ps rest)) := by
  induction ps generalizing k v with
  | nil =>
    show (spacesL j ++ encodeStr k ++ ':' :: ' ' :: prettyV j v) ++ _ = _
    rw [pairsTail]
    simp [List.append_assoc]
  | cons q qs ih =>
    obtain ⟨k2, v2⟩ := q
    show (spacesL j ++ encodeStr k ++ ':' :: ' ' :: prettyV j v ++
      ',' :: '\n' :: prettyPairs j ((k2, v2) :: qs)) ++ _ = _
    rw [pairsTail]
    have hih := ih k2 v2
    simp only [List.append_assoc, List.cons_append] at hih ⊢
    rw [hih]

theorem keyNotIn_forall (k : String) (l : List (String × Json)) (h : keyNotIn k l = true) :
    ∀ p ∈ l, p.1 ≠ k := by
  induction l with
  | nil => simp
  | cons q rest ih =>
    obtain ⟨k0, v0⟩ := q
    simp only [keyNotIn, Bool.and_eq_true, decide_eq_true_eq] at h
    intro p hp
    rcases List.mem_cons.mp hp with rfl | hp
    · simpa using h.1
    · exact ih h.2 p hp

theorem keyNotIn_append (k : String) (a b : List (String × Json)) :
    keyNotIn k (a ++ b) = (keyNotIn k a && keyNotIn k b) := by
  induction a with
  | nil => simp [keyNotIn]
  | cons q rest ih =>
    obtain ⟨k0, v0⟩ := q
    simp [keyNotIn, ih, Bool.and_assoc]

theorem jdictSet_append (l : List (String × Json)) (k : String) (v : Json)
    (h : keyNotIn k l = true) : jdictSet l k v = l ++ [(k, v)] := by
  induction l with
  | nil => rfl
  | cons q rest ih =>
    obtain ⟨k0, v0⟩ := q
    simp only [keyNotIn, Bool.and_eq_true, decide_eq_true_eq] at h
    simp only [jdictSet, List.cons_append]
    rw [if_neg h.1, ih h.2]

theorem buildDict_append (ps : List (String × Json)) : ∀ acc,
    (∀ p ∈ ps, keyNotIn p.1 acc = true) → WFbKvs ps = true →
    buildDict acc ps = acc ++ ps := by
  induction ps with
  | nil => intro acc _ _; simp [buildDict]
  | cons p rest ih =>
    intro acc hdisj hwf
    obtain ⟨k, v⟩ := p
    simp only [WFbKvs, Bool.and_eq_true] at hwf
    simp only [buildDict]
    rw [jdictSet_append _ _ _ (hdisj (k, v) (by simp))]
    rw [ih (acc ++ [(k, v)]) ?_ hwf.2]
    · simp
    · intro p hp
      rw [keyNotIn_append]
      have h1 := hdisj p (by simp [hp])
      have h2 : p.1 ≠ k := keyNotIn_forall k rest hwf.1.1 p hp
      have h3 : ¬k = p.1 := fun e => h2 e.symm
      simp [keyNotIn, h1, h3]

theorem buildDict_of_WF (ps : List (String × Json)) (h : WFbKvs ps = true) :
    buildDict [] ps = ps := by
  rw [buildDict_append ps [] (fun p _ => rfl) h]
  rfl

theorem parseVal_other (f : Nat) (c : Char) (t : List Char)
    (h1 : c ≠ 'n') (h2 : c ≠ 't') (h3 : c ≠ 'f') (h4 : c ≠ '"') (h5 : c ≠ '[')
    (h6 : c ≠ '\x7b') : parseVal (f + 1) (c :: t) = parseNum (c :: t) := by
  rw [parseVal.eq_def]
  split <;> simp_all

theorem intChars_head_dispatch (n : Int) :
    ∃ c t, intChars n = c :: t ∧ c ≠ 'n' ∧ c ≠ 't' ∧ c ≠ 'f' ∧ c ≠ '"' ∧ c ≠ '[' ∧
      c ≠ '\x7b' := by
  unfold intChars
  by_cases h : n < 0
  · rw [if_pos h]
    exact ⟨'-', _, rfl, by decide, by decide, by decide, by decide, by decide, by decide⟩
  · rw [if_neg h]
    obtain ⟨m, t, hm, ht⟩ := natCharsF_head n.natAbs n.natAbs
    refine ⟨digitChar m, t, ht, ?_, ?_, ?_, ?_, ?_, ?_⟩
    all_goals interval_cases m
    all_goals decide

theorem jfuel_pos (d : Json) : 1 ≤ jfuel d := by
  cases d <;> simp [jfuel]

theorem parseVal_arr_elems (g : Nat) (r : List Char) (c : Char) (t : List Char)
    (hsk : skipWs r = c :: t) (h : c ≠ ']') :
    parseVal (g + 1) ('[' :: r) =
      (parseElems g (c :: t)).map (fun p => (Json.arr p.1, p.2)) := by
  show (match skipWs r with
        | ']' :: rest2 => some (Json.arr [], rest2)
        | cs2 => (parseElems g cs2).map
            (fun p : List Json × List Char => (Json.arr p.1, p.2))) = _
  rw [hsk]
  split <;> simp_all

theorem parseVal_obj_members (g : Nat) (r : List Char) (c : Char) (t : List Char)
    (hsk : skipWs r = c :: t) (h : c ≠ '\x7d') :
    parseVal (g + 1) ('\x7b' :: r) =
      (parseMembers g (c :: t)).map (fun p => (Json.obj (buildDict [] p.1), p.2)) := by
  show (match skipWs r with
        | '\x7d' :: rest2 => some (Json.obj [], rest2)
        | cs2 => (parseMembers g cs2).map
            (fun p : List (String × Json) × List Char =>
              (Json.obj (buildDict [] p.1), p.2))) = _
  rw [hsk]
  split <;> simp_all

theorem numSafe_itemsTail (j i : Nat) (xs : List Json) (rest : List Char) :
    numSafe (itemsTail j i xs rest) = true := by
  cases xs <;> rfl

theorem numSafe_pairsTail (j i : Nat) (ps : List (String × Json)) (rest : List Char) :
    numSafe (pairsTail j i ps rest) = true := by
  cases ps with
  | nil => rfl
  | cons q qs => obtain ⟨k, v⟩ := q; rfl

mutual

theorem parseVal_pretty : ∀ (f : Nat) (d : Json) (ind : Nat) (rest : List Char),
    WFb d = true → jfuel d ≤ f → numSafe rest = true →
    parseVal f (prettyV ind d ++ rest) = some (d, rest)
  | 0, d, _, _ => fun _ hf _ => absurd hf (by have := jfuel_pos d; omega)
  | g + 1, .null, ind, rest => fun _ _ _ => rfl
  | g + 1, .bool true, ind, rest => fun _ _ _ => rfl
  | g + 1, .bool false, ind, rest => fun _ _ _ => rfl
  | g + 1, .num n, ind, rest => fun _ _ hr => by
    obtain ⟨c, t, hct, h1, h2, h3, h4, h5, h6⟩ := intChars_head_dispatch n
    show parseVal (g + 1) (intChars n ++ rest) = some (.num n, rest)
    rw [hct, List.cons_append, parseVal_other g c _ h1 h2 h3 h4 h5 h6,
      ← List.cons_append, ← hct]
    exact parseNum_intChars n rest hr
  | g + 1, .str s, ind, rest => fun _ _ _ => by
    show parseVal (g + 1) (('"' :: escBody s.toList ++ ['"']) ++ rest) = some (.str s, rest)
    have he : ('"' :: escBody s.toList ++ ['"']) ++ rest =
        '"' :: (escBody s.toList ++ '"' :: rest) := by
      simp [List.append_assoc]
    rw [he]
    show (parseStrBody (escBody s.toList ++ '"' :: rest)).map
        (fun p => (Json.str (String.mk p.1), p.2)) = some (.str s, rest)
    rw [parseStrBody_escBody]
    rfl
  | g + 1, .arr [], ind, rest => fun _ _ _ => rfl
  | g + 1, .obj [], ind, rest => fun _ _ _ => rfl
  | g + 1, .arr (x :: xs), ind, rest => fun hw hf _ => by
    obtain ⟨c, t, hct, hp1, hp2, _, hp4, _, _⟩ := prettyV_head_facts (ind + 4) x
    show parseVal (g + 1)
      (('[' :: '\n' :: prettyItems (ind + 4) (x :: xs) ++ '\n' :: spacesL ind ++ [']'])
        ++ rest) = some (.arr (x :: xs), rest)
    have he : ('[' :: '\n' :: prettyItems (ind + 4) (x :: xs) ++ '\n' :: spacesL ind ++ [']'])
        ++ rest = '[' :: '\n' ::
          (prettyItems (ind + 4) (x :: xs) ++ ('\n' :: (spacesL ind ++ ']' :: rest))) := by
      simp [List.append_assoc]
    rw [he, prettyItems_decomp]
    have hsk : skipWs ('\n' :: (spacesL (ind + 4) ++ (prettyV (ind + 4) x ++
        itemsTail (ind + 4) ind xs rest))) =
        c :: (t ++ itemsTail (ind + 4) ind xs rest) := by
      rw [skipWs_newline, skipWs_spacesL_append, hct, List.cons_append]
      exact skipWs_of_head c _ hp2
    rw [parseVal_arr_elems g _ c _ hsk hp4]
    rw [← List.cons_append, ← hct]
    have hwl : WFbList (x :: xs) = true := by simpa [WFb] using hw
    have hfl : efuel (x :: xs) ≤ g := by
      have : jfuel (.arr (x :: xs)) = 1 + efuel (x :: xs) := rfl
      omega
    rw [parseElems_pretty g x xs (ind + 4) ind rest hwl hfl]
    rfl
  | g + 1, .obj ((k, v) :: ps), ind, rest => fun hw hf _ => by
    show parseVal (g + 1)
      (('\x7b' :: '\n' :: prettyPairs (ind + 4) ((k, v) :: ps) ++ '\n' :: spacesL ind
        ++ ['\x7d']) ++ rest) = some (.obj ((k, v) :: ps), rest)
    have he : ('\x7b' :: '\n' :: prettyPairs (ind + 4) ((k, v) :: ps) ++ '\n' :: spacesL ind
        ++ ['\x7d']) ++ rest = '\x7b' :: '\n' ::
          (prettyPairs (ind + 4) ((k, v) :: ps) ++ ('\n' :: (spacesL ind ++ '\x7d' :: rest))) := by
      simp [List.append_assoc]
    rw [he, prettyPairs_decomp]
    have hsk : skipWs ('\n' :: (spacesL (ind + 4) ++ (encodeStr k ++ ':' :: ' ' ::
        (prettyV (ind + 4) v ++ pairsTail (ind + 4) ind ps rest)))) =
        '"' :: (escBody k.toList ++ '"' :: ':' :: ' ' ::
          (prettyV (ind + 4) v ++ pairsTail (ind + 4) ind ps rest)) := by
      rw [skipWs_newline, skipWs_spacesL_append]
      show skipWs ('"' :: escBody k.toList ++ ['"'] ++ _) = _
      have he2 : '"' :: escBody k.toList ++ ['"'] ++ (':' :: ' ' ::
          (prettyV (ind + 4) v ++ pairsTail (ind + 4) ind ps rest)) =
          '"' :: (escBody k.toList ++ '"' :: ':' :: ' ' ::
            (prettyV (ind + 4) v ++ pairsTail (ind + 4) ind ps rest)) := by
        simp [List.append_assoc]
      rw [he2]
      exact skipWs_of_head '"' _ (by decide)
    rw [parseVal_obj_members g _ _ _ hsk (by decide)]
    have hwk : WFbKvs ((k, v) :: ps) = true := by simpa [WFb] using hw
    have hfm : mfuel ((k, v) :: ps) ≤ g := by
      have : jfuel (.obj ((k, v) :: ps)) = 1 + mfuel ((k, v) :: ps) := rfl
      omega
    have hm := parseMembers_pretty g k v ps (ind + 4) ind rest hwk hfm
    have he3 : encodeStr k ++ ':' :: ' ' :: prettyV (ind + 4) v ++
        pairsTail (ind + 4) ind ps rest = '"' :: (escBody k.toList ++ '"' :: ':' :: ' ' ::
          (prettyV (ind + 4) v ++ pairsTail (ind + 4) ind ps rest)) := by
      show ('"' :: escBody k.toList ++ ['"']) ++ _ ++ _ = _
      simp [List.append_assoc]
    rw [he3] at hm
    rw [hm]
    simp only [Option.map_some']
    rw [buildDict_of_WF _ hwk]

theorem parseElems_pretty : ∀ (f : Nat) (x : Json) (xs : List Json) (j i : Nat)
    (rest : List Char), WFbList (x :: xs) = true → efuel (x :: xs) ≤ f →
    parseElems f (prettyV j x ++ itemsTail j i xs rest) = some (x :: xs, rest)
  | 0, x, xs, _, _, _ => fun _ hf => absurd hf (by cases xs <;> simp [efuel])
  | g + 1, x, xs, j, i, rest => fun hw hf => by
    have hwx : WFb x = true := by
      simp only [WFbList, Bool.and_eq_true] at hw
      exact hw.1
    have hfx : jfuel x ≤ g := by
      cases xs <;> simp only [efuel] at hf <;> omega
    have h1 := parseVal_pretty g x j (itemsTail j i xs rest) hwx hfx
      (numSafe_itemsTail j i xs rest)
    show (match parseVal g (prettyV j x ++ itemsTail j i xs rest) with
          | none => none
          | some (v, rest1) =>
            match skipWs rest1 with
            | ',' :: rest2 => (parseElems g (skipWs rest2)).map (fun p => (v :: p.1, p.2))
            | ']' :: rest2 => some ([v], rest2)
            | _ => none) = some (x :: xs, rest)
    rw [h1]
    cases xs with
    | nil =>
      show (match skipWs (itemsTail j i [] rest) with
            | ',' :: rest2 => (parseElems g (skipWs rest2)).map (fun p => (x :: p.1, p.2))
            | ']' :: rest2 => some ([x], rest2)
            | _ => none) = some ([x], rest)
      rw [show itemsTail j i [] rest = '\n' :: (spacesL i ++ ']' :: rest) from rfl]
      rw [skipWs_newline, skipWs_spacesL_append, skipWs_of_head ']' _ (by decide)]
      rfl
    | cons y ys =>
      show (match skipWs (itemsTail j i (y :: ys) rest) with
            | ',' :: rest2 => (parseElems g (skipWs rest2)).map (fun p => (x :: p.1, p.2))
            | ']' :: rest2 => some ([x], rest2)
            | _ => none) = some (x :: y :: ys, rest)
      rw [show itemsTail j i (y :: ys) rest =
        ',' :: '\n' :: (spacesL j ++ (prettyV j y ++ itemsTail j i ys rest)) from by
          rw [itemsTail]; simp [List.append_assoc]]
      rw [skipWs_of_head ',' _ (by decide)]
      show (parseElems g (skipWs ('\n' :: (spacesL j ++ (prettyV j y ++
        itemsTail j i ys rest))))).map (fun p => (x :: p.1, p.2)) = some (x :: y :: ys, rest)
      rw [skipWs_newline, skipWs_spacesL_append]
      obtain ⟨c, t, hct, _, hp2, _, _, _, _⟩ := prettyV_head_facts j y
      rw [hct, List.cons_append, skipWs_of_head c _ hp2, ← List.cons_append, ← hct]
      have hwl : WFbList (y :: ys) = true := by
        simp only [WFbList, Bool.and_eq_true] at hw ⊢
        exact hw.2
      have hfl : efuel (y :: ys) ≤ g := by
        simp only [efuel] at hf
        omega
      rw [parseElems_pretty g y ys j i rest hwl hfl]
      rfl

theorem parseMembers_pretty : ∀ (f : Nat) (k : String) (v : Json)
    (ps : List (String × Json)) (j i : Nat) (rest : List Char),
    WFbKvs ((k, v) :: ps) = true → mfuel ((k, v) :: ps) ≤ f →
    parseMembers f (encodeStr k ++ ':' :: ' ' :: prettyV j v ++ pairsTail j i ps rest)
      = some ((k, v) :: ps, rest)
  | 0, k, v, ps, _, _, _ => fun _ hf => absurd hf (by
      cases ps with
      | nil => simp [mfuel]
      | cons q qs => obtain ⟨k2, v2⟩ := q; simp [mfuel])
  | g + 1, k, v, ps, j, i, rest => fun hw hf => by
    have hwv : WFb v = true := by
      simp only [WFbKvs, Bool.and_eq_true] at hw
      exact hw.1.2
    have hfv : jfuel v ≤ g := by
      cases ps with
      | nil => simp only [mfuel] at hf; omega
      | cons q qs =>
        obtain ⟨k2, v2⟩ := q
        simp only [mfuel] at hf
        omega
    have he : encodeStr k ++ ':' :: ' ' :: prettyV j v ++ pairsTail j i ps rest =
        '"' :: (escBody k.toList ++ '"' :: ':' :: ' ' ::
          (prettyV j v ++ pairsTail j i ps rest)) := by
      show ('"' :: escBody k.toList ++ ['"']) ++ _ ++ _ = _
      simp [List.append_assoc]
    rw [he]
    show (match parseStrBody (escBody k.toList ++ '"' :: ':' :: ' ' ::
          (prettyV j v ++ pairsTail j i ps rest)) with
        | none => none
        | some (kk, rest1) =>
          match skipWs rest1 with
          | ':' :: rest2 =>
            (match parseVal g (skipWs rest2) with
             | none => none
             | some (vv, rest3) =>
               match skipWs rest3 with
               | ',' :: rest4 =>
                 (parseMembers g (skipWs rest4)).map
                   (fun p => ((String.mk kk, vv) :: p.1, p.2))
               | '\x7d' :: rest4 => some ([(String.mk kk, vv)], rest4)
               | _ => none)
          | _ => none) = some ((k, v) :: ps, rest)
    rw [parseStrBody_escBody]
    show (match skipWs (':' :: ' ' :: (prettyV j v ++ pairsTail j i ps rest)) with
          | ':' :: rest2 =>
            (match parseVal g (skipWs rest2) with
             | none => none
             | some (vv, rest3) =>
               match skipWs rest3 with
               | ',' :: rest4 =>
                 (parseMembers g (skipWs rest4)).map
                   (fun p => ((String.mk k.toList, vv) :: p.1, p.2))
               | '\x7d' :: rest4 => some ([(String.mk k.toList, vv)], rest4)
               | _ => none)
          | _ => none) = some ((k, v) :: ps, rest)
    rw [skipWs_of_head ':' _ (by decide)]
    show (match parseVal g (skipWs (' ' :: (prettyV j v ++ pairsTail j i ps rest))) with
          | none => none
          | some (vv, rest3) =>
            match skipWs rest3 with
            | ',' :: rest4 =>
              (parseMembers g (skipWs rest4)).map
                (fun p => ((String.mk k.toList, vv) :: p.1, p.2))
            | '\x7d' :: rest4 => some ([(String.mk k.toList, vv)], rest4)
            | _ => none) = some ((k, v) :: ps, rest)
    obtain ⟨c, t, hct, _, hp2, _, _, _, _⟩ := prettyV_head_facts j v
    have hsk : skipWs (' ' :: (prettyV j v ++ pairsTail j i ps rest)) =
        prettyV j v ++ pairsTail j i ps rest := by
      rw [skipWs_space]
      rw [hct, List.cons_append]
      exact skipWs_of_head c _ hp2
    rw [hsk]
    rw [parseVal_pretty g v j (pairsTail j i ps rest) hwv hfv (numSafe_pairsTail j i ps rest)]
    cases ps with
    | nil =>
      show (match skipWs (pairsTail j i [] rest) with
            | ',' :: rest4 =>
              (parseMembers g (skipWs rest4)).map
                (fun p => ((String.mk k.toList, v) :: p.1, p.2))
            | '\x7d' :: rest4 => some ([(String.mk k.toList, v)], rest4)
            | _ => none) = some ([(k, v)], rest)
      rw [show pairsTail j i [] rest = '\n' :: (spacesL i ++ '\x7d' :: rest) from rfl]
      rw [skipWs_newline, skipWs_spacesL_append, skipWs_of_head '\x7d' _ (by decide)]
      rfl
    | cons q qs =>
      obtain ⟨k2, v2⟩ := q
      show (match skipWs (pairsTail j i ((k2, v2) :: qs) rest) with
            | ',' :: rest4 =>
              (parseMembers g (skipWs rest4)).map
                (fun p => ((String.mk k.toList, v) :: p.1, p.2))
            | '\x7d' :: rest4 => some ([(String.mk k.toList, v)], rest4)
            | _ => none) = some ((k, v) :: (k2, v2) :: qs, rest)
      rw [show pairsTail j i ((k2, v2) :: qs) rest =
        ',' :: '\n' :: (spacesL j ++ (encodeStr k2 ++ ':' :: ' ' ::
          (prettyV j v2 ++ pairsTail j i qs rest))) from by
          rw [pairsTail]; simp [List.append_assoc]]
      rw [skipWs_of_head ',' _ (by decide)]
      show (parseMembers g (skipWs ('\n' :: (spacesL j ++ (encodeStr k2 ++ ':' :: ' ' ::
          (prettyV j v2 ++ pairsTail j i qs rest)))))).map
            (fun p => ((String.mk k.toList, v) :: p.1, p.2))
          = some ((k, v) :: (k2, v2) :: qs, rest)
      rw [skipWs_newline, skipWs_spacesL_append]
      have hsk2 : skipWs (encodeStr k2 ++ ':' :: ' ' ::
          (prettyV j v2 ++ pairsTail j i qs rest)) =
          encodeStr k2 ++ ':' :: ' ' :: (prettyV j v2 ++ pairsTail j i qs rest) := by
        show skipWs (('"' :: escBody k2.toList ++ ['"']) ++ _) = _
        rw [List.cons_append]
        exact skipWs_of_head '"' _ (by decide)
      rw [hsk2]
      have hwk2 : WFbKvs ((k2, v2) :: qs) = true := by
        simp only [WFbKvs, Bool.and_eq_true] at hw ⊢
        exact hw.2
      have hfm2 : mfuel ((k2, v2) :: qs) ≤ g := by
        simp only [mfuel] at hf
        omega
      have hm2 := parseMembers_pretty g k2 v2 qs j i rest hwk2 hfm2
      have he4 : encodeStr k2 ++ ':' :: ' ' :: prettyV j v2 ++ pairsTail j i qs rest =
          encodeStr k2 ++ ':' :: ' ' :: (prettyV j v2 ++ pairsTail j i qs rest) := by
        simp [List.append_assoc]
      rw [he4] at hm2
      rw [hm2]
      rfl

end

theorem keyNotIn_jdictSet (acc : List (String × Json)) (k k' : String) (v : Json) :
    keyNotIn k' (jdictSet acc k v) = (keyNotIn k' acc && !(k' == k)) := by
  induction acc with
  | nil =>
    simp only [jdictSet, keyNotIn, Bool.and_true, Bool.true_and]
    by_cases h : k = k'
    · subst h
      simp
    · have e2 : (k' == k) = false := beq_eq_false_iff_ne.mpr (fun e => h e.symm)
      simp [h, e2]
  | cons q rest ih =>
    obtain ⟨k0, v0⟩ := q
    by_cases h : k0 = k
    · subst h
      simp only [jdictSet, if_pos rfl, keyNotIn]
      by_cases h2 : k0 = k'
      · subst h2
        simp
      · have e2 : (k' == k0) = false := beq_eq_false_iff_ne.mpr (fun e => h2 e.symm)
        simp [h2, e2]
    · simp only [jdictSet, if_neg h, keyNotIn, ih, Bool.and_assoc]

theorem WFbKvs_jdictSet (acc : List (String × Json)) (k : String) (v : Json)
    (hacc : WFbKvs acc = true) (hv : WFb v = true) :
    WFbKvs (jdictSet acc k v) = true := by
  induction acc with
  | nil => simp [jdictSet, WFbKvs, keyNotIn, hv]
  | cons q rest ih =>
    obtain ⟨k0, v0⟩ := q
    simp only [WFbKvs, Bool.and_eq_true] at hacc
    by_cases h : k0 = k
    · subst h
      simp only [jdictSet, if_pos rfl, WFbKvs, Bool.and_eq_true]
      exact ⟨⟨hacc.1.1, hv⟩, hacc.2⟩
    · simp only [jdictSet, if_neg h, WFbKvs, Bool.and_eq_true]
      refine ⟨⟨?_, hacc.1.2⟩, ih hacc.2⟩
      rw [keyNotIn_jdictSet, hacc.1.1, beq_eq_false_iff_ne.mpr h]
      rfl

theorem WFbKvs_buildDict (ps : List (String × Json)) : ∀ acc, WFbKvs acc = true →
    (∀ p ∈ ps, WFb p.2 = true) → WFbKvs (buildDict acc ps) = true := by
  induction ps with
  | nil => intro acc hacc _; simpa [buildDict] using hacc
  | cons p rest ih =>
    intro acc hacc hv
    obtain ⟨k, v⟩ := p
    simp only [buildDict]
    exact ih _ (WFbKvs_jdictSet acc k v hacc (hv (k, v) (by simp)))
      (fun p hp => hv p (by simp [hp]))

theorem parseNum_shape (cs : List Char) (v : Json) (r : List Char)
    (h : parseNum cs = some (v, r)) : ∃ n, v = .num n := by
  unfold parseNum at h
  split at h <;>
    (simp only [Option.map_eq_some'] at h
     obtain ⟨p, -, hp⟩ := h
     exact ⟨_, (congrArg Prod.fst hp).symm⟩)

mutual

theorem parseVal_WF : ∀ (f : Nat) (cs : List Char) (v : Json) (rest : List Char),
    parseVal f cs = some (v, rest) → WFb v = true
  | 0, _, _, _ => fun h => by simp [parseVal] at h
  | g + 1, cs, v, rest => fun h => by
    rw [parseVal.eq_def] at h
    split at h
    · simp at h
    · rename_i f' hf
      obtain rfl : f' = g := by omega
      split at h
      · simp only [Option.some.injEq, Prod.mk.injEq] at h
        rw [← h.1]
        rfl
      · simp only [Option.some.injEq, Prod.mk.injEq] at h
        rw [← h.1]
        rfl
      · simp only [Option.some.injEq, Prod.mk.injEq] at h
        rw [← h.1]
        rfl
      · simp only [Option.map_eq_some'] at h
        obtain ⟨p, -, hp⟩ := h
        cases hp
        rfl
      · split at h
        · simp only [Option.some.injEq, Prod.mk.injEq] at h
          rw [← h.1]
          rfl
        · simp only [Option.map_eq_some'] at h
          obtain ⟨p, hp, hpe⟩ := h
          cases hpe
          show WFbList p.1 = true
          exact parseElems_WF f' _ p.1 p.2 hp
      · split at h
        · simp only [Option.some.injEq, Prod.mk.injEq] at h
          rw [← h.1]
          rfl
        · simp only [Option.map_eq_some'] at h
          obtain ⟨p, hp, hpe⟩ := h
          cases hpe
          show WFbKvs (buildDict [] p.1) = true
          exact WFbKvs_buildDict p.1 [] rfl (parseMembers_WF f' _ p.1 p.2 hp)
      · obtain ⟨n, hn⟩ := parseNum_shape _ _ _ h
        rw [hn]
        rfl

theorem parseElems_WF : ∀ (f : Nat) (cs : List Char) (vs : List Json) (rest : List Char),
    parseElems f cs = some (vs, rest) → WFbList vs = true
  | 0, _, _, _ => fun h => by simp [parseElems] at h
  | g + 1, cs, vs, rest => fun h => by
    rw [parseElems.eq_def] at h
    split at h
    · simp at h
    · rename_i f' hf
      obtain rfl : f' = g := by omega
      split at h
      · simp at h
      · rename_i v1 r1 hpv
        split at h
        · simp only [Option.map_eq_some'] at h
          obtain ⟨p, hp, hpe⟩ := h
          cases hpe
          show (WFb v1 && WFbList p.1) = true
          rw [parseVal_WF f' _ v1 r1 hpv, parseElems_WF f' _ p.1 p.2 hp]
          rfl
        · simp only [Option.some.injEq, Prod.mk.injEq] at h
          rw [← h.1]
          show (WFb v1 && WFbList []) = true
          rw [parseVal_WF f' _ v1 r1 hpv]
          rfl
        · simp at h

theorem parseMembers_WF : ∀ (f : Nat) (cs : List Char) (ps : List (String × Json))
    (rest : List Char), parseMembers f cs = some (ps, rest) → ∀ p ∈ ps, WFb p.2 = true
  | 0, _, _, _ => fun h => by simp [parseMembers] at h
  | g + 1, cs, ps, rest => fun h => by
    rw [parseMembers.eq_def] at h
    split at h
    · simp at h
    · rename_i f' hf
      obtain rfl : f' = g := by omega
      split at h
      · split at h
        · simp at h
        · rename_i k1 r1 hk
          split at h
          · split at h
            · simp at h
            · rename_i v1 r3 hpv
              split at h
              · simp only [Option.map_eq_some'] at h
                obtain ⟨p, hp, hpe⟩ := h
                cases hpe
                intro q hq
                rcases List.mem_cons.mp hq with rfl | hq
                · exact parseVal_WF f' _ v1 r3 hpv
                · exact parseMembers_WF f' _ p.1 p.2 hp q hq
              · simp only [Option.some.injEq, Prod.mk.injEq] at h
                rw [← h.1]
                intro q hq
                rcases List.mem_cons.mp hq with rfl | hq
                · exact parseVal_WF f' _ v1 r3 hpv
                · simp at hq
              · simp at h
          · simp at h
      · simp at h

end

theorem natChars_len (n : Nat) : 1 ≤ (natChars n).length := by
  unfold natChars natCharsF
  split <;> simp

theorem intChars_len (n : Int) : 1 ≤ (intChars n).length := by
  unfold intChars
  split
  · simp
  · exact natChars_len _

mutual

theorem jfuel_le : ∀ (d : Json) (ind : Nat), jfuel d ≤ (prettyV ind d).length
  | .null, ind => by simp [jfuel, prettyV]
  | .bool true, ind => by simp [jfuel, prettyV]
  | .bool false, ind => by simp [jfuel, prettyV]
  | .num n, ind => by
    have := intChars_len n
    simp only [jfuel, prettyV]
    omega
  | .str s, ind => by simp [jfuel, prettyV, encodeStr]
  | .arr [], ind => by simp [jfuel, efuel, prettyV]
  | .arr (x :: xs), ind => by
    have h := efuel_le x xs (ind + 4)
    simp only [jfuel, prettyV, List.length_cons, List.length_append, spacesL,
      List.length_replicate]
    omega
  | .obj [], ind => by simp [jfuel, mfuel, prettyV]
  | .obj (p :: ps), ind => by
    have h := mfuel_le p ps (ind + 4)
    simp only [jfuel, prettyV, List.length_cons, List.length_append, spacesL,
      List.length_replicate]
    omega
termination_by d _ => sizeOf d

theorem efuel_le : ∀ (x : Json) (xs : List Json) (j : Nat),
    efuel (x :: xs) ≤ 3 + (prettyItems j (x :: xs)).length
  | x, [], j => by
    have h := jfuel_le x j
    simp only [efuel, prettyItems, List.length_append, spacesL, List.length_replicate]
    omega
  | x, y :: ys, j => by
    have h1 := jfuel_le x j
    have h2 := efuel_le y ys j
    simp only [efuel, prettyItems, List.length_append, List.length_cons, spacesL,
      List.length_replicate]
    omega
termination_by x xs _ => sizeOf (x :: xs)

theorem mfuel_le : ∀ (p : String × Json) (ps : List (String × Json)) (j : Nat),
    mfuel (p :: ps) ≤ 3 + (prettyPairs j (p :: ps)).length
  | (k, v), [], j => by
    have h := jfuel_le v j
    simp only [mfuel, prettyPairs, List.length_append, List.length_cons, spacesL,
      List.length_replicate]
    omega
  | (k, v), q :: qs, j => by
    have h1 := jfuel_le v j
    have h2 := mfuel_le q qs j
    simp only [mfuel, prettyPairs, List.length_append, List.length_cons, spacesL,
      List.length_replicate]
    omega
termination_by p ps _ => sizeOf (p :: ps)

end

theorem read_patches_WF (content : String) (d : Json)
    (h : read_patches content = .ok d) : WFb d = true := by
  unfold read_patches at h
  split at h
  · rename_i data hv
    simp only [Except.ok.injEq] at h
    subst h
    unfold jsonLoads at hv
    split at hv
    · rename_i v1 r1 hpv
      split at hv
      · simp only [Option.some.injEq] at hv
        subst hv
        exact parseVal_WF _ _ _ _ hpv
      · simp at hv
    · simp at hv
  · simp at h

theorem write_read_id (d : Json) (hWF : WFb d = true) :
    read_patches (write_patches d) = Except.ok d := by
  unfold read_patches write_patches
  rw [show (String.mk (prettyV 0 d)).toList = prettyV 0 d from rfl,
    stripComments_prettyV d]
  unfold jsonLoads
  obtain ⟨c, t, hct, hps, hjw, h1, h2, h3, h4⟩ := prettyV_head_facts 0 d
  rw [hct, skipWs_of_head c t hjw, ← hct]
  have hrt := parseVal_pretty ((prettyV 0 d).length + 1) d 0 [] hWF
    (by have := jfuel_le d 0; omega) rfl
  rw [List.append_nil] at hrt
  rw [hrt]
  rfl

/-- **C2.**  Round-trip law of the patch codec (`write_patches` =
`json.dump(..., indent=4, ensure_ascii=False)`, `read_patches` = comment
stripping plus `json.loads`): (1) for every patch document -- a value of
the modelled JSON universe whose objects all have distinct keys, as is
automatic for documents coming from Python dicts -- writing and then
reading yields exactly the original document; (2) for every backing-file
text that `read_patches` accepts at all (in particular text interleaving
full-line `//` comments with the lines of a valid JSON document), reading,
writing the result, and reading again reproduces the first read's result
exactly. -/
theorem patch_roundtrip :
    (∀ d : Json, WFb d = true → read_patches (write_patches d) = Except.ok d) ∧
    (∀ (content : String) (d : Json), read_patches content = Except.ok d →
      read_patches (write_patches d) = Except.ok d) :=
  ⟨fun d h => write_read_id d h,
   fun content d h => write_read_id d (read_patches_WF content d h)⟩

theorem patch_roundtrip_witness :
    read_patches (write_patches (Json.obj [("nickname", Json.str "Pl ayer"),
      ("servers", Json.arr [Json.num 0, Json.num (-3), Json.bool false]),
      ("extra", Json.null)])) =
      Except.ok (Json.obj [("nickname", Json.str "Pl ayer"),
        ("servers", Json.arr [Json.num 0, Json.num (-3), Json.bool false]),
        ("extra", Json.null)]) ∧
    read_patches (write_patches (Json.obj [("a", Json.num 1)])) =
      Except.ok (Json.obj [("a", Json.num 1)]) :=
  ⟨patch_roundtrip.1 _ (by rfl),
   patch_roundtrip.2 "// note\n\x7b\n    \"a\": 1\n\x7d" _ (by rfl)⟩
